import Mathlib

/-!
Shallow embedding of the meta service of the distributed file system
(`src/services/meta/core/state.py`, `src/services/meta/core/config.py`,
`src/services/meta/routers/client_api.py`), together with proofs about the
catalog operations, the membership state machine and the replica placement
and repair logic.

Modelling conventions:
* Python dicts that hold the catalog sections (`files`, `chunks`,
  `membership`) are embedded as association lists with Python-dict update
  semantics: updating an existing key replaces the value in place, a new key
  is appended at the end.
* Float timestamps (`time.time()`) are embedded as integers; every function
  that reads the wall clock in Python (`now_ts = _now_timestamp()`) takes the
  current time as an explicit parameter instead.
* `random.sample(population, k)` is embedded as an explicit sampler
  parameter `sample : List String → Nat → List String`; the predicate
  `ValidSampler` captures exactly what `random.sample` guarantees: the result
  has length `k` and is a permutation of a sublist of the population (i.e.
  draws at distinct positions).
* The configuration values `STORAGE_NODES`, `REPLICATION_FACTOR` and
  `HEARTBEAT_TIMEOUT_SEC` are collected into a `Config` record.
  `ENABLE_STORAGE_HEALTHCHECK` is modelled with its default value `false`
  (`config.py` line 33); the optional synchronous probe branch of
  `get_alive_storage_nodes` performs network I/O and is not part of any
  claim.
* Persistence (`load_state` / `persist_state`) is embedded by having every
  handler return the document that is on disk after the call: `persist_state`
  is called exactly where the source calls it, so the returned catalog is the
  post-call persisted document.
-/

namespace DFS

/-! ## Association lists with Python-dict update semantics -/

/-- Lookup in an association list, i.e. `d.get(k)` on a Python dict whose
insertion order is the list order. -/
def lookupA {α : Type} : List (String × α) → String → Option α
  | [], _ => none
  | (k', v) :: rest, k => if k' = k then some v else lookupA rest k

/-- Python-dict assignment `d[k] = v`: replace in place if the key is
present, append otherwise. -/
def insertA {α : Type} : List (String × α) → String → α → List (String × α)
  | [], k, v => [(k, v)]
  | (k', v') :: rest, k, v =>
      if k' = k then (k, v) :: rest else (k', v') :: insertA rest k v

/-! ## Strings: Python `.strip()` and `.lower()` (ASCII fragment)

The status strings and node identifiers handled by the service are ASCII, so
Python's unicode-aware `strip`/`lower` are embedded on the ASCII fragment. -/

def isPyWhitespace (c : Char) : Bool :=
  c = ' ' || c = '\t' || c = '\n' || c = '\r' || c = '\x0b' || c = '\x0c'

/-- Python `s.strip()`. -/
def pyStrip (s : String) : String :=
  String.mk (((s.data.dropWhile isPyWhitespace).reverse.dropWhile isPyWhitespace).reverse)

def asciiLowerChar (c : Char) : Char :=
  if 'A' ≤ c ∧ c ≤ 'Z' then Char.ofNat (c.toNat + 32) else c

/-- Python `s.lower()`. -/
def pyLower (s : String) : String :=
  String.mk (s.data.map asciiLowerChar)

/-! ## Configuration (`core/config.py`) -/

/-- The configuration values the meta service reads from the environment. -/
structure Config where
  /-- `STORAGE_NODES` (`N_cfg`). -/
  storageNodes : List String
  /-- `REPLICATION_FACTOR` (`R`). -/
  replicationFactor : Nat
  /-- `HEARTBEAT_TIMEOUT_SEC` (`T_timeout`). -/
  heartbeatTimeoutSec : Int
deriving DecidableEq

/-! ## Membership entries (`core/state.py`) -/

/-- A structured membership entry (the normalized form). -/
structure MemEntry where
  status : String
  lastHeartbeatTs : Int
  lastHeartbeatAt : String
deriving DecidableEq

/-- A raw value stored under a node id in the `membership` section of the
persisted JSON document: a legacy bare string, a JSON object (each of the
three known fields possibly missing), or any other JSON value. -/
inductive RawMembershipValue where
  | strVal : String → RawMembershipValue
  | dictVal : Option String → Option Int → Option String → RawMembershipValue
  | otherVal : RawMembershipValue
deriving DecidableEq

/-- `_timestamp_to_iso` (state.py line 25). The exact ISO-8601 rendering is
produced by the `datetime` library; the embedding only needs a nonempty
string that is a function of the timestamp, so it is rendered as `"@<ts>"`.
-/
def timestampToIso (ts : Int) : String :=
  String.mk ('@' :: (toString ts).data)

/-- `_normalize_status` (state.py lines 28-32). -/
def normalizeStatus (rawStatus : String) : String :=
  let normalized := pyLower (pyStrip rawStatus)
  if normalized = "alive" ∨ normalized = "dead" ∨ normalized = "suspected" then
    normalized
  else
    "dead"

/-- `_new_membership_entry` (state.py lines 34-39). -/
def newMembershipEntry (nowTs : Int) (status : String) : MemEntry :=
  { status := normalizeStatus status
    lastHeartbeatTs := nowTs
    lastHeartbeatAt := timestampToIso nowTs }

/-- `_coerce_membership_entry` (state.py lines 41-64).  `membership.get(n)`
returning `None` (missing key) behaves like the final catch-all branch and is
passed in as `otherVal` by the callers. -/
def coerceMembershipEntry (raw : RawMembershipValue) (nowTs : Int) : MemEntry :=
  match raw with
  | .strVal s => newMembershipEntry nowTs s
  | .dictVal statusRaw tsRaw atRaw =>
      let status := normalizeStatus (statusRaw.getD "alive")
      let hbTs := tsRaw.getD nowTs
      let hbAt :=
        match atRaw with
        | some a => if a = "" then timestampToIso hbTs else a
        | none => timestampToIso hbTs
      { status := status, lastHeartbeatTs := hbTs, lastHeartbeatAt := hbAt }
  | .otherVal => newMembershipEntry nowTs "alive"

/-- The persisted form of a structured entry (a JSON object with exactly the
three known fields). -/
def toRaw (e : MemEntry) : RawMembershipValue :=
  .dictVal (some e.status) (some e.lastHeartbeatTs) (some e.lastHeartbeatAt)

/-! ## The catalog document -/

/-- The persisted catalog: `files` maps a file name to its ordered chunk
fingerprint list, `chunks` maps a fingerprint to its replica list,
`membership` maps a node id to its raw membership value.  The constant
`version` field is not modelled. -/
@[ext]
structure Catalog where
  files : List (String × List String)
  chunks : List (String × List String)
  membership : List (String × RawMembershipValue)
deriving DecidableEq

/-! ## Membership state machine (`core/state.py`) -/

/-- The loop body of `ensure_membership_schema` that materializes a missing
configured node (state.py lines 106-109). -/
def ensureStep (nowTs : Int) (acc : List (String × RawMembershipValue))
    (n : String) : List (String × RawMembershipValue) :=
  if (lookupA acc n).isSome then acc
  else acc ++ [(n, toRaw (newMembershipEntry nowTs "alive"))]

/-- `ensure_membership_schema` (state.py lines 89-111): normalize every
stored membership value in place, then append a fresh `alive` entry for every
configured node that has none.  Returns the new catalog and the `changed`
flag. -/
def ensureMembershipSchema (cfg : Config) (nowTs : Int) (st : Catalog) :
    Catalog × Bool :=
  let normalized :=
    st.membership.map (fun kv => (kv.1, toRaw (coerceMembershipEntry kv.2 nowTs)))
  let completed := cfg.storageNodes.foldl (ensureStep nowTs) normalized
  ({ st with membership := completed },
   if completed = st.membership then false else true)

/-- The demotion test of the timeout sweep (state.py line 136):
`entry["status"] in {"alive", "suspected"} and elapsed > HEARTBEAT_TIMEOUT_SEC`. -/
def sweepDemotes (cfg : Config) (nowTs : Int) (e : MemEntry) : Prop :=
  (e.status = "alive" ∨ e.status = "suspected") ∧
    cfg.heartbeatTimeoutSec < nowTs - e.lastHeartbeatTs

instance (cfg : Config) (nowTs : Int) (e : MemEntry) :
    Decidable (sweepDemotes cfg nowTs e) := by
  unfold sweepDemotes; infer_instance

/-- The per-entry effect of the timeout sweep (state.py lines 136-137). -/
def sweepApply (cfg : Config) (nowTs : Int) (e : MemEntry) : MemEntry :=
  if sweepDemotes cfg nowTs e then { e with status := "dead" } else e

/-- One node of the timeout sweep loop body (state.py lines 131-140). -/
def sweepStep (cfg : Config) (nowTs : Int)
    (acc : List (String × RawMembershipValue) × Bool) (n : String) :
    List (String × RawMembershipValue) × Bool :=
  let e := coerceMembershipEntry ((lookupA acc.1 n).getD .otherVal) nowTs
  (insertA acc.1 n (toRaw (sweepApply cfg nowTs e)),
   acc.2 || decide (sweepDemotes cfg nowTs e))

/-- `apply_storage_heartbeat_timeout` (state.py lines 126-142). -/
def applyStorageHeartbeatTimeout (cfg : Config) (nowTs : Int) (st : Catalog) :
    Catalog × Bool :=
  let r1 := ensureMembershipSchema cfg nowTs st
  let r2 := cfg.storageNodes.foldl (sweepStep cfg nowTs) (r1.1.membership, false)
  ({ r1.1 with membership := r2.1 }, r1.2 || r2.2)

/-- `refresh_storage_membership` (state.py lines 145-150). -/
def refreshStorageMembership (cfg : Config) (nowTs : Int) (st : Catalog) :
    Catalog × Bool :=
  let r1 := ensureMembershipSchema cfg nowTs st
  let r2 := applyStorageHeartbeatTimeout cfg nowTs r1.1
  (r2.1, r1.2 || r2.2)

/-- `mark_storage_heartbeat` (state.py lines 113-123). -/
def markStorageHeartbeat (cfg : Config) (nowTs : Int) (st : Catalog)
    (nodeId : String) : Catalog × Bool :=
  let r1 := ensureMembershipSchema cfg nowTs st
  let newEntry := newMembershipEntry nowTs "alive"
  let oldEntry := coerceMembershipEntry ((lookupA r1.1.membership nodeId).getD .otherVal) nowTs
  ({ r1.1 with membership := insertA r1.1.membership nodeId (toRaw newEntry) },
   r1.2 || decide (oldEntry ≠ newEntry))

/-- `get_membership_snapshot` (state.py lines 153-161), as the lookup table
of coerced entries.  The source additionally sorts the keys; every consumer
only performs key lookups, for which sorting a duplicate-free-keyed dict is
irrelevant. -/
def membershipSnapshot (cfg : Config) (nowTs : Int) (st : Catalog) :
    List (String × MemEntry) :=
  ((ensureMembershipSchema cfg nowTs st).1.membership).map
    (fun kv => (kv.1, coerceMembershipEntry kv.2 nowTs))

/-- `get_alive_storage_nodes` (state.py lines 175-184) with the default
configuration `ENABLE_STORAGE_HEALTHCHECK = false`. -/
def getAliveStorageNodes (cfg : Config) (nowTs : Int) (st : Catalog) :
    List String :=
  let snap := membershipSnapshot cfg nowTs st
  cfg.storageNodes.filter fun n =>
    match lookupA snap n with
    | some e => e.status = "alive"
    | none => false

/-! ## Placement engine and client API (`routers/client_api.py`) -/

/-- The error taxonomy of the HTTP surface (`HTTPException`s raised by the
handlers). -/
inductive ApiError where
  | insufficient
  | unregistered : List String → ApiError
  | notFound
  | badRequest
deriving DecidableEq

instance {ε α : Type} [DecidableEq ε] [DecidableEq α] :
    DecidableEq (Except ε α) := fun x y =>
  match x, y with
  | .ok a, .ok b =>
      if h : a = b then isTrue (by rw [h])
      else isFalse (fun hc => h (Except.ok.inj hc))
  | .error a, .error b =>
      if h : a = b then isTrue (by rw [h])
      else isFalse (fun hc => h (Except.error.inj hc))
  | .ok _, .error _ => isFalse (fun hc => Except.noConfusion hc)
  | .error _, .ok _ => isFalse (fun hc => Except.noConfusion hc)

/-- The HTTP status code each error is surfaced with. -/
def statusCode : ApiError → Nat
  | .insufficient => 500
  | .unregistered _ => 400
  | .notFound => 404
  | .badRequest => 400

/-- A sampler embedding `random.sample(population, k)`: the guarantees the
library call gives are that the result has length `k` (defined for
`k ≤ |population|`) and is drawn at `k` distinct positions of the
population, i.e. is a permutation of a sublist. -/
def ValidSampler (sample : List String → Nat → List String) : Prop :=
  ∀ l n, n ≤ l.length → (sample l n).length = n ∧ (sample l n).Subperm l

/-- The deterministic sampler that takes the first `n` elements; it meets
`ValidSampler` and is used to instantiate concrete runs. -/
def takeSample (l : List String) (n : Nat) : List String :=
  l.take n

/-- `choose_replicas` (state.py lines 187-193).  The `ValueError` it raises
is surfaced by FastAPI as a 500, embedded as `insufficient`. -/
def chooseReplicas (sample : List String → Nat → List String)
    (aliveNodes : List String) (replicaCount : Nat) :
    Except ApiError (List String) :=
  if replicaCount = 0 then .ok []
  else if aliveNodes.length < replicaCount then .error .insufficient
  else .ok (sample aliveNodes replicaCount)

/-- `_unique_nodes` (client_api.py lines 30-37): order-preserving
deduplication that also drops falsy (empty) node ids; `seen` accumulates the
already emitted nodes. -/
def uniqueNodesAux : List String → List String → List String
  | [], _ => []
  | n :: rest, seen =>
      if n ≠ "" ∧ n ∉ seen then n :: uniqueNodesAux rest (n :: seen)
      else uniqueNodesAux rest seen

def uniqueNodes (nodes : List String) : List String :=
  uniqueNodesAux nodes []

/-- The `current` list of `_repair_chunk_replicas` (client_api.py line 40):
the deduplicated current replicas restricted to the alive nodes. -/
def repairKept (current alive : List String) : List String :=
  (uniqueNodes current).filter fun n => decide (n ∈ alive)

/-- The `candidates` list of `_repair_chunk_replicas` (client_api.py
line 46): the alive nodes not already kept. -/
def repairCandidates (current alive : List String) : List String :=
  alive.filter fun n => decide (n ∉ repairKept current alive)

/-- `_repair_chunk_replicas` (client_api.py lines 39-51). -/
def repairChunkReplicas (cfg : Config)
    (sample : List String → Nat → List String)
    (currentReplicas aliveNodes : List String) : Except ApiError (List String) :=
  let current := repairKept currentReplicas aliveNodes
  if cfg.replicationFactor ≤ current.length then
    .ok (current.take cfg.replicationFactor)
  else
    let needed := cfg.replicationFactor - current.length
    let candidates := repairCandidates currentReplicas aliveNodes
    if candidates.length < needed then .error .insufficient
    else .ok (current ++ sample candidates needed)

/-- `_load_state_with_membership_refresh` (client_api.py lines 21-27).
Returns the refreshed in-memory state together with the document persisted
after the call (`persist_state` runs only when the refresh changed
something; otherwise the disk keeps the loaded document). -/
def loadStateWithMembershipRefresh (cfg : Config) (nowTs : Int) (st : Catalog) :
    Catalog × Catalog :=
  let r := refreshStorageMembership cfg nowTs st
  (r.1, if r.2 then r.1 else st)

/-- The response body of `POST /chunk/check`.  The source field `exists` is a
Lean keyword and is embedded as `chunkExists`. -/
structure ChunkCheckResp where
  chunkExists : Bool
  locations : List String
deriving DecidableEq

/-- `chunk_check` (client_api.py lines 125-138).  The first component is the
persisted document after the call. -/
def chunkCheck (cfg : Config) (nowTs : Int) (st : Catalog)
    (fingerprint : String) : Catalog × ChunkCheckResp :=
  let r := loadStateWithMembershipRefresh cfg nowTs st
  match lookupA r.1.chunks fingerprint with
  | none => (r.2, { chunkExists := false, locations := [] })
  | some reps =>
      let alive := getAliveStorageNodes cfg nowTs r.1
      let replicas := (uniqueNodes reps).filter fun n => decide (n ∈ alive)
      (r.2, { chunkExists := cfg.replicationFactor ≤ replicas.length
              locations := replicas })

/-- `chunk_register` (client_api.py lines 140-164).  The first component is
the persisted document after the call; the result carries the `assigned`
replica list of a success (the response wraps it through `_unique_nodes`,
see `buildChunkRegisterResp`). -/
def chunkRegister (cfg : Config) (sample : List String → Nat → List String)
    (nowTs : Int) (st : Catalog) (fingerprint : String) :
    Catalog × Except ApiError (List String) :=
  let r := loadStateWithMembershipRefresh cfg nowTs st
  let alive := getAliveStorageNodes cfg nowTs r.1
  if alive.length < cfg.replicationFactor then (r.2, .error .insufficient)
  else
    match lookupA r.1.chunks fingerprint with
    | none =>
        match chooseReplicas sample alive cfg.replicationFactor with
        | .error e => (r.2, .error e)
        | .ok assigned =>
            ({ r.1 with chunks := insertA r.1.chunks fingerprint assigned },
             .ok assigned)
    | some currentReplicas =>
        match repairChunkReplicas cfg sample currentReplicas alive with
        | .error e => (r.2, .error e)
        | .ok repaired =>
            if repaired ≠ uniqueNodes currentReplicas then
              ({ r.1 with chunks := insertA r.1.chunks fingerprint repaired },
               .ok repaired)
            else (r.2, .ok repaired)

/-- `_build_chunk_register_resp` (client_api.py lines 93-96): both response
fields carry `_unique_nodes(assigned)`. -/
def buildChunkRegisterResp (assigned : List String) : List String :=
  uniqueNodes assigned

/-- The iteration over `set(req.chunks)` in `file_commit`, embedded in
first-occurrence order.  Each distinct fingerprint is an independent key of
the `chunks` dict and the per-key update reads only that key, so every
iteration order of the Python set produces this same final dict. -/
def dedupFirstAux : List String → List String → List String
  | [], _ => []
  | x :: rest, seen =>
      if x ∈ seen then dedupFirstAux rest seen
      else x :: dedupFirstAux rest (x :: seen)

def dedupFirst (l : List String) : List String :=
  dedupFirstAux l []

/-- The repair loop of `file_commit` (client_api.py lines 183-186): repair
each distinct fingerprint and overwrite its replica entry; a repair failure
aborts the handler before anything is persisted. -/
def commitRepairLoop (cfg : Config) (sample : List String → Nat → List String)
    (alive : List String) :
    List (String × List String) → List String →
    Except ApiError (List (String × List String))
  | chunks, [] => .ok chunks
  | chunks, fp :: rest =>
      match repairChunkReplicas cfg sample ((lookupA chunks fp).getD []) alive with
      | .error e => .error e
      | .ok repaired => commitRepairLoop cfg sample alive (insertA chunks fp repaired) rest

/-- `file_commit` (client_api.py lines 167-190).  The first component is the
persisted document after the call. -/
def fileCommit (cfg : Config) (sample : List String → Nat → List String)
    (nowTs : Int) (st : Catalog) (fileName : String) (fps : List String) :
    Catalog × Except ApiError Unit :=
  let r := loadStateWithMembershipRefresh cfg nowTs st
  let missing := fps.filter fun fp => (lookupA r.1.chunks fp).isNone
  if missing ≠ [] then (r.2, .error (.unregistered missing))
  else
    let alive := getAliveStorageNodes cfg nowTs r.1
    if alive.length < cfg.replicationFactor then (r.2, .error .insufficient)
    else
      match commitRepairLoop cfg sample alive r.1.chunks (dedupFirst fps) with
      | .error e => (r.2, .error e)
      | .ok chunks2 =>
          ({ r.1 with
              files := insertA r.1.files fileName fps
              chunks := chunks2 },
           .ok ())

/-- `file_get` (client_api.py lines 193-211).  The first component is the
persisted document after the call; a success carries the ordered
`(fingerprint, locations)` items. -/
def fileGet (cfg : Config) (nowTs : Int) (st : Catalog) (fileName : String) :
    Catalog × Except ApiError (List (String × List String)) :=
  let r := loadStateWithMembershipRefresh cfg nowTs st
  match lookupA r.1.files fileName with
  | none => (r.2, .error .notFound)
  | some fps =>
      let alive := getAliveStorageNodes cfg nowTs r.1
      (r.2, .ok (fps.map fun fp =>
        (fp, (uniqueNodes ((lookupA r.1.chunks fp).getD [])).filter
          fun n => decide (n ∈ alive))))

/-- The response body of `POST /internal/storage_heartbeat`. -/
structure StorageHeartbeatResp where
  nodeId : String
  observedAt : String
deriving DecidableEq

/-- `storage_heartbeat` (client_api.py lines 102-122).  The validation runs
before `load_state`, so a rejected request leaves the disk untouched; on
acceptance the handler sweeps, marks the heartbeat and persists only when
something changed. -/
def storageHeartbeat (cfg : Config) (nowTs : Int) (st : Catalog)
    (rawNodeId : String) : Catalog × Except ApiError StorageHeartbeatResp :=
  let nodeId := pyStrip rawNodeId
  if nodeId = "" then (st, .error .badRequest)
  else if nodeId ∉ cfg.storageNodes then (st, .error .badRequest)
  else
    let r1 := refreshStorageMembership cfg nowTs st
    let r2 := markStorageHeartbeat cfg nowTs r1.1 nodeId
    let persisted := if r1.2 || r2.2 then r2.1 else st
    let observedAt :=
      match lookupA (membershipSnapshot cfg nowTs r2.1) nodeId with
      | some e => e.lastHeartbeatAt
      | none => ""
    (persisted, .ok { nodeId := nodeId, observedAt := observedAt })

/-! ## Derived notions used by the statements -/

/-- A membership entry in the shape the normalization produces: its status
is a fixed point of `_normalize_status` and its ISO stamp is nonempty (so
`_coerce_membership_entry` maps its persisted form back to itself). -/
def IsNormalizedEntry (e : MemEntry) : Prop :=
  normalizeStatus e.status = e.status ∧ e.lastHeartbeatAt ≠ ""

/-- A membership section all of whose values are persisted structured
entries in normalized shape. -/
def NormalizedM (m : List (String × RawMembershipValue)) : Prop :=
  ∀ kv ∈ m, ∃ e, kv.2 = toRaw e ∧ IsNormalizedEntry e

/-- A membership section holding an entry for every configured node. -/
def CompleteM (cfg : Config) (m : List (String × RawMembershipValue)) : Prop :=
  ∀ n ∈ cfg.storageNodes, (lookupA m n).isSome = true

/-- A membership section on which the timeout sweep at `nowTs` has nothing
left to do. -/
def SweptM (cfg : Config) (nowTs : Int)
    (m : List (String × RawMembershipValue)) : Prop :=
  ∀ n ∈ cfg.storageNodes, ∃ e, lookupA m n = some (toRaw e) ∧
    IsNormalizedEntry e ∧ ¬ sweepDemotes cfg nowTs e

/-- The entry the timeout sweep observes for node `n` (after the schema
normalization that opens `apply_storage_heartbeat_timeout`). -/
def entryObserved (cfg : Config) (nowTs : Int) (st : Catalog) (n : String) :
    MemEntry :=
  coerceMembershipEntry
    ((lookupA ((ensureMembershipSchema cfg nowTs st).1).membership n).getD .otherVal)
    nowTs

/-- The replica-set invariant of the spec (section 3): every stored replica
list is duplicate-free, drawn from `N_cfg`, of length at most `R` — and of
length exactly `R` whenever at least `R` configured nodes are currently
alive. -/
def ReplicaInv (cfg : Config) (nowTs : Int) (st : Catalog) : Prop :=
  (∀ fp reps, lookupA st.chunks fp = some reps →
      reps.Nodup ∧ (∀ x ∈ reps, x ∈ cfg.storageNodes) ∧
        reps.length ≤ cfg.replicationFactor) ∧
  (cfg.replicationFactor ≤ (getAliveStorageNodes cfg nowTs st).length →
    ∀ fp reps, lookupA st.chunks fp = some reps →
      reps.length = cfg.replicationFactor)

/-! ## Concrete instances used to exercise the theorems -/

/-- A two-node configuration with replication factor 2 and a 9 second
heartbeat timeout. -/
def cfgW : Config :=
  { storageNodes := ["s1", "s2"], replicationFactor := 2, heartbeatTimeoutSec := 9 }

/-- A configuration with no storage nodes. -/
def cfgEmpty : Config :=
  { storageNodes := [], replicationFactor := 1, heartbeatTimeoutSec := 9 }

/-- A normalized alive membership value stamped at time `ts`. -/
def aliveEntryAt (ts : Int) : RawMembershipValue :=
  toRaw (newMembershipEntry ts "alive")

/-- An empty catalog whose two configured nodes are alive since time 0. -/
def stW : Catalog :=
  { files := []
    chunks := []
    membership := [("s1", aliveEntryAt 0), ("s2", aliveEntryAt 0)] }

/-- The catalog `stW` after registering chunk `"a"` on both nodes. -/
def stW1 : Catalog :=
  { files := []
    chunks := [("a", ["s1", "s2"])]
    membership := [("s1", aliveEntryAt 0), ("s2", aliveEntryAt 0)] }

/-- The catalog `stW1` after committing file `"f"` with chunk list
`["a", "a"]`. -/
def stW2 : Catalog :=
  { files := [("f", ["a", "a"])]
    chunks := [("a", ["s1", "s2"])]
    membership := [("s1", aliveEntryAt 0), ("s2", aliveEntryAt 0)] }

/-- A fully empty catalog. -/
def stEmpty : Catalog :=
  { files := [], chunks := [], membership := [] }

/-- A catalog holding an under-replicated chunk `"b"` next to two alive
nodes. -/
def stUnder : Catalog :=
  { files := []
    chunks := [("b", ["s1"])]
    membership := [("s1", aliveEntryAt 0), ("s2", aliveEntryAt 0)] }

/-! ## Lemmas: association lists -/

theorem lookupA_insertA_self {α : Type} (l : List (String × α)) (k : String)
    (v : α) : lookupA (insertA l k v) k = some v := by
  induction l with
  | nil => simp [insertA, lookupA]
  | cons kv rest ih =>
      by_cases h : kv.1 = k
      · simp [insertA, h, lookupA]
      · cases kv with
        | mk k' v' =>
            simp only at h
            simp [insertA, h, lookupA, ih]

theorem lookupA_insertA_ne {α : Type} (l : List (String × α)) {k k' : String}
    (v : α) (h : k' ≠ k) : lookupA (insertA l k v) k' = lookupA l k' := by
  induction l with
  | nil => simp [insertA, lookupA, Ne.symm h]
  | cons kv rest ih =>
      cases kv with
      | mk k0 v0 =>
          by_cases h0 : k0 = k
          · subst h0
            simp [insertA, lookupA, Ne.symm h]
          · simp [insertA, h0, lookupA, ih]

theorem insertA_of_lookup_self {α : Type} [DecidableEq α]
    {l : List (String × α)} {k : String} {v : α}
    (h : lookupA l k = some v) : insertA l k v = l := by
  induction l with
  | nil => simp [lookupA] at h
  | cons kv rest ih =>
      cases kv with
      | mk k0 v0 =>
          by_cases h0 : k0 = k
          · subst h0
            simp [lookupA] at h
            simp [insertA, h]
          · simp [lookupA, h0] at h
            simp [insertA, h0, ih h]

theorem lookupA_isSome_insertA {α : Type} (l : List (String × α))
    (k k' : String) (v : α) (h : (lookupA l k').isSome = true) :
    (lookupA (insertA l k v) k').isSome = true := by
  by_cases hk : k' = k
  · subst hk; simp [lookupA_insertA_self]
  · rwa [lookupA_insertA_ne l v hk]

theorem mem_insertA {α : Type} {l : List (String × α)} {k : String} {v : α}
    {kv : String × α} (h : kv ∈ insertA l k v) : kv = (k, v) ∨ kv ∈ l := by
  induction l with
  | nil => simpa [insertA] using h
  | cons kv0 rest ih =>
      cases kv0 with
      | mk k0 v0 =>
          by_cases h0 : k0 = k
          · simp [insertA, h0] at h
            rcases h with h | h
            · exact Or.inl h
            · exact Or.inr (List.mem_cons_of_mem _ h)
          · simp only [insertA, h0, if_false, List.mem_cons] at h
            rcases h with h | h
            · exact Or.inr (by simp [h])
            · rcases ih h with h | h
              · exact Or.inl h
              · exact Or.inr (List.mem_cons_of_mem _ h)

theorem lookupA_map_value {α β : Type} (g : α → β)
    (l : List (String × α)) (k : String) :
    lookupA (l.map fun kv => (kv.1, g kv.2)) k = (lookupA l k).map g := by
  induction l with
  | nil => simp [lookupA]
  | cons kv rest ih =>
      by_cases h : kv.1 = k
      · simp [lookupA, h]
      · simp [lookupA, h, ih]

theorem lookupA_append {α : Type} (l1 l2 : List (String × α)) (k : String) :
    lookupA (l1 ++ l2) k =
      match lookupA l1 k with
      | some v => some v
      | none => lookupA l2 k := by
  induction l1 with
  | nil => simp [lookupA]
  | cons kv rest ih =>
      by_cases h : kv.1 = k
      · simp [lookupA, h]
      · simp [lookupA, h, ih]

theorem map_eq_self_of_mem {α : Type} {f : α → α} {l : List α}
    (h : ∀ x ∈ l, f x = x) : l.map f = l := by
  induction l with
  | nil => rfl
  | cons x rest ih =>
      simp only [List.map_cons, h x (List.mem_cons_self x rest),
        ih (fun y hy => h y (List.mem_cons_of_mem x hy))]

/-! ## Lemmas: `_unique_nodes` -/

theorem mem_uniqueNodesAux {l seen : List String} {x : String}
    (h : x ∈ uniqueNodesAux l seen) : x ∈ l ∧ x ≠ "" ∧ x ∉ seen := by
  induction l generalizing seen with
  | nil => simp [uniqueNodesAux] at h
  | cons n rest ih =>
      by_cases hc : n ≠ "" ∧ n ∉ seen
      · rw [uniqueNodesAux, if_pos hc] at h
        rcases List.mem_cons.mp h with h | h
        · subst h; exact ⟨List.mem_cons_self _ _, hc.1, hc.2⟩
        · obtain ⟨h1, h2, h3⟩ := ih h
          refine ⟨List.mem_cons_of_mem _ h1, h2, fun hx => h3 ?_⟩
          exact List.mem_cons_of_mem _ hx
      · rw [uniqueNodesAux, if_neg hc] at h
        obtain ⟨h1, h2, h3⟩ := ih h
        exact ⟨List.mem_cons_of_mem _ h1, h2, h3⟩

theorem uniqueNodesAux_nodup (l seen : List String) :
    (uniqueNodesAux l seen).Nodup := by
  induction l generalizing seen with
  | nil => simp [uniqueNodesAux]
  | cons n rest ih =>
      by_cases hc : n ≠ "" ∧ n ∉ seen
      · rw [uniqueNodesAux, if_pos hc]
        refine List.nodup_cons.mpr ⟨fun hmem => ?_, ih _⟩
        exact (mem_uniqueNodesAux hmem).2.2 (List.mem_cons_self _ _)
      · rw [uniqueNodesAux, if_neg hc]
        exact ih _

theorem uniqueNodesAux_eq_self {l : List String} (seen : List String)
    (hnd : l.Nodup) (hne : ∀ x ∈ l, x ≠ "") (hseen : ∀ x ∈ l, x ∉ seen) :
    uniqueNodesAux l seen = l := by
  induction l generalizing seen with
  | nil => rfl
  | cons n rest ih =>
      have hc : n ≠ "" ∧ n ∉ seen :=
        ⟨hne n (List.mem_cons_self _ _), hseen n (List.mem_cons_self _ _)⟩
      rw [uniqueNodesAux, if_pos hc]
      have hnd' := List.nodup_cons.mp hnd
      have heq : uniqueNodesAux rest (n :: seen) = rest := by
        refine ih (n :: seen) hnd'.2
          (fun x hx => hne x (List.mem_cons_of_mem _ hx)) (fun x hx => ?_)
        intro hmem
        rcases List.mem_cons.mp hmem with h | h
        · exact hnd'.1 (h ▸ hx)
        · exact hseen x (List.mem_cons_of_mem _ hx) h
      rw [heq]

theorem uniqueNodes_nodup (l : List String) : (uniqueNodes l).Nodup :=
  uniqueNodesAux_nodup l []

theorem mem_uniqueNodes {l : List String} {x : String}
    (h : x ∈ uniqueNodes l) : x ∈ l ∧ x ≠ "" :=
  ⟨(mem_uniqueNodesAux h).1, (mem_uniqueNodesAux h).2.1⟩

theorem uniqueNodes_eq_self {l : List String} (hnd : l.Nodup)
    (hne : ∀ x ∈ l, x ≠ "") : uniqueNodes l = l :=
  uniqueNodesAux_eq_self [] hnd hne (by simp)

/-! ## Lemmas: status normalization and entry coercion -/

theorem normalizeStatus_cases (s : String) :
    normalizeStatus s = "alive" ∨ normalizeStatus s = "dead" ∨
      normalizeStatus s = "suspected" := by
  unfold normalizeStatus
  by_cases h : pyLower (pyStrip s) = "alive" ∨ pyLower (pyStrip s) = "dead" ∨
      pyLower (pyStrip s) = "suspected"
  · rw [if_pos h]; exact h
  · rw [if_neg h]; exact Or.inr (Or.inl rfl)

theorem normalizeStatus_alive : normalizeStatus "alive" = "alive" := by decide

theorem normalizeStatus_dead : normalizeStatus "dead" = "dead" := by decide

theorem normalizeStatus_suspected :
    normalizeStatus "suspected" = "suspected" := by decide

theorem normalizeStatus_idem (s : String) :
    normalizeStatus (normalizeStatus s) = normalizeStatus s := by
  rcases normalizeStatus_cases s with h | h | h <;> rw [h]
  · exact normalizeStatus_alive
  · exact normalizeStatus_dead
  · exact normalizeStatus_suspected

theorem timestampToIso_ne_empty (ts : Int) : timestampToIso ts ≠ "" := by
  intro h
  have hd : ('@' :: (toString ts).data) = [] := congrArg String.data h
  simp at hd

theorem newMembershipEntry_isNormalized (nowTs : Int) (s : String) :
    IsNormalizedEntry (newMembershipEntry nowTs s) :=
  ⟨normalizeStatus_idem s, timestampToIso_ne_empty nowTs⟩

theorem coerce_isNormalized (raw : RawMembershipValue) (nowTs : Int) :
    IsNormalizedEntry (coerceMembershipEntry raw nowTs) := by
  cases raw with
  | strVal s => exact newMembershipEntry_isNormalized nowTs s
  | otherVal => exact newMembershipEntry_isNormalized nowTs "alive"
  | dictVal statusRaw tsRaw atRaw =>
      refine ⟨normalizeStatus_idem _, ?_⟩
      cases atRaw with
      | none => exact timestampToIso_ne_empty _
      | some a =>
          by_cases ha : a = ""
          · simp [coerceMembershipEntry, ha]
            exact timestampToIso_ne_empty _
          · simp [coerceMembershipEntry, ha]

theorem coerce_toRaw {e : MemEntry} (h : IsNormalizedEntry e) (nowTs : Int) :
    coerceMembershipEntry (toRaw e) nowTs = e := by
  obtain ⟨hst, hat⟩ := h
  simp [toRaw, coerceMembershipEntry, hst, hat]

theorem sweepApply_isNormalized {e : MemEntry} (cfg : Config) (nowTs : Int)
    (h : IsNormalizedEntry e) : IsNormalizedEntry (sweepApply cfg nowTs e) := by
  unfold sweepApply
  by_cases hd : sweepDemotes cfg nowTs e
  · rw [if_pos hd]
    exact ⟨normalizeStatus_dead, h.2⟩
  · rw [if_neg hd]; exact h

theorem sweepApply_not_demotes (cfg : Config) (nowTs : Int) (e : MemEntry) :
    ¬ sweepDemotes cfg nowTs (sweepApply cfg nowTs e) := by
  unfold sweepApply
  by_cases hd : sweepDemotes cfg nowTs e
  · rw [if_pos hd]
    intro hc
    rcases hc.1 with h | h <;> simp at h
  · rw [if_neg hd]; exact hd

theorem sweepApply_of_not_demotes {cfg : Config} {nowTs : Int} {e : MemEntry}
    (h : ¬ sweepDemotes cfg nowTs e) : sweepApply cfg nowTs e = e := by
  simp [sweepApply, h]

/-! ## Lemmas: `ensure_membership_schema` -/

theorem ensureFold_normalized {base : List (String × RawMembershipValue)}
    (l : List String) (nowTs : Int) (h : NormalizedM base) :
    NormalizedM (l.foldl (ensureStep nowTs) base) := by
  induction l generalizing base with
  | nil => exact h
  | cons n rest ih =>
      refine ih ?_
      unfold ensureStep
      by_cases hc : (lookupA base n).isSome = true
      · rwa [if_pos hc]
      · rw [if_neg hc]
        intro kv hkv
        rcases List.mem_append.mp hkv with hkv | hkv
        · exact h kv hkv
        · simp only [List.mem_singleton] at hkv
          exact ⟨newMembershipEntry nowTs "alive", by rw [hkv],
            newMembershipEntry_isNormalized nowTs "alive"⟩

theorem ensureFold_preserves_isSome {base : List (String × RawMembershipValue)}
    (l : List String) (nowTs : Int) (k : String)
    (h : (lookupA base k).isSome = true) :
    (lookupA (l.foldl (ensureStep nowTs) base) k).isSome = true := by
  induction l generalizing base with
  | nil => exact h
  | cons n rest ih =>
      refine ih ?_
      unfold ensureStep
      by_cases hc : (lookupA base n).isSome = true
      · rwa [if_pos hc]
      · rw [if_neg hc, lookupA_append]
        rw [Option.isSome_iff_exists] at h
        obtain ⟨v, hv⟩ := h
        simp [hv]

theorem ensureFold_complete {base : List (String × RawMembershipValue)}
    (l : List String) (nowTs : Int) (k : String) (hk : k ∈ l) :
    (lookupA (l.foldl (ensureStep nowTs) base) k).isSome = true := by
  induction l generalizing base with
  | nil => simp at hk
  | cons n rest ih =>
      rcases List.mem_cons.mp hk with hk | hk
      · subst hk
        refine ensureFold_preserves_isSome rest nowTs k ?_
        unfold ensureStep
        by_cases hc : (lookupA base k).isSome = true
        · rwa [if_pos hc]
        · rw [if_neg hc, lookupA_append]
          rcases hl : lookupA base k with _ | v
          · simp [lookupA]
          · simp [hl] at hc
      · exact ih hk

theorem ensureFold_id {base : List (String × RawMembershipValue)}
    (l : List String) (nowTs : Int)
    (h : ∀ n ∈ l, (lookupA base n).isSome = true) :
    l.foldl (ensureStep nowTs) base = base := by
  induction l with
  | nil => rfl
  | cons n rest ih =>
      have hstep : ensureStep nowTs base n = base := by
        unfold ensureStep
        rw [if_pos (h n (List.mem_cons_self _ _))]
      rw [List.foldl_cons, hstep]
      exact ih (fun m hm => h m (List.mem_cons_of_mem _ hm))

theorem ensure_files (cfg : Config) (nowTs : Int) (st : Catalog) :
    ((ensureMembershipSchema cfg nowTs st).1).files = st.files := rfl

theorem ensure_chunks (cfg : Config) (nowTs : Int) (st : Catalog) :
    ((ensureMembershipSchema cfg nowTs st).1).chunks = st.chunks := rfl

theorem ensure_normalized (cfg : Config) (nowTs : Int) (st : Catalog) :
    NormalizedM ((ensureMembershipSchema cfg nowTs st).1).membership := by
  refine ensureFold_normalized cfg.storageNodes nowTs ?_
  intro kv hkv
  rcases List.mem_map.mp hkv with ⟨kv0, _, hkv0⟩
  exact ⟨coerceMembershipEntry kv0.2 nowTs, by rw [← hkv0],
    coerce_isNormalized kv0.2 nowTs⟩

theorem ensure_complete (cfg : Config) (nowTs : Int) (st : Catalog) :
    CompleteM cfg ((ensureMembershipSchema cfg nowTs st).1).membership :=
  fun _ hn => ensureFold_complete cfg.storageNodes nowTs _ hn

theorem ensure_fix {cfg : Config} {st : Catalog} (nowTs : Int)
    (hn : NormalizedM st.membership) (hc : CompleteM cfg st.membership) :
    ensureMembershipSchema cfg nowTs st = (st, false) := by
  unfold ensureMembershipSchema
  have hmap : st.membership.map
      (fun kv => (kv.1, toRaw (coerceMembershipEntry kv.2 nowTs))) =
      st.membership := by
    refine map_eq_self_of_mem ?_
    intro kv hkv
    obtain ⟨e, he, hne⟩ := hn kv hkv
    rw [he, coerce_toRaw hne, ← he]
  simp only [hmap, ensureFold_id cfg.storageNodes nowTs hc]
  simp

/-! ## Lemmas: the timeout sweep -/

theorem sweepFold_lookup_not_mem (cfg : Config) (nowTs : Int)
    (l : List String) (base : List (String × RawMembershipValue)) (b : Bool)
    {k : String} (hk : k ∉ l) :
    lookupA ((l.foldl (sweepStep cfg nowTs) (base, b)).1) k = lookupA base k := by
  induction l generalizing base b with
  | nil => rfl
  | cons n rest ih =>
      have hkn : k ≠ n := fun h => hk (h ▸ List.mem_cons_self n rest)
      have hkrest : k ∉ rest := fun h => hk (List.mem_cons_of_mem _ h)
      simp only [List.foldl_cons, sweepStep]
      rw [ih _ _ hkrest, lookupA_insertA_ne base _ hkn]

theorem sweepFold_lookup (cfg : Config) (nowTs : Int)
    {l : List String} (hl : l.Nodup) {k : String} (hk : k ∈ l)
    (base : List (String × RawMembershipValue)) (b : Bool) :
    lookupA ((l.foldl (sweepStep cfg nowTs) (base, b)).1) k =
      some (toRaw (sweepApply cfg nowTs
        (coerceMembershipEntry ((lookupA base k).getD .otherVal) nowTs))) := by
  induction l generalizing base b with
  | nil => cases hk
  | cons n rest ih =>
      obtain ⟨hnotin, hndrest⟩ := List.nodup_cons.mp hl
      rcases List.mem_cons.mp hk with heq | hmem
      · subst heq
        simp only [List.foldl_cons, sweepStep]
        rw [sweepFold_lookup_not_mem cfg nowTs rest _ _ hnotin,
          lookupA_insertA_self]
      · have hkn : k ≠ n := fun heq => hnotin (heq ▸ hmem)
        simp only [List.foldl_cons, sweepStep]
        rw [ih hndrest hmem, lookupA_insertA_ne base _ hkn]

theorem sweepFold_normalized (cfg : Config) (nowTs : Int) (l : List String)
    (base : List (String × RawMembershipValue)) (b : Bool)
    (h : NormalizedM base) :
    NormalizedM ((l.foldl (sweepStep cfg nowTs) (base, b)).1) := by
  induction l generalizing base b with
  | nil => exact h
  | cons n rest ih =>
      simp only [List.foldl_cons, sweepStep]
      refine ih _ _ ?_
      intro kv hkv
      rcases mem_insertA hkv with hkv | hkv
      · exact ⟨sweepApply cfg nowTs
          (coerceMembershipEntry ((lookupA base n).getD .otherVal) nowTs),
          by rw [hkv],
          sweepApply_isNormalized cfg nowTs (coerce_isNormalized _ nowTs)⟩
      · exact h kv hkv

theorem sweepFold_isSome (cfg : Config) (nowTs : Int) (l : List String)
    (base : List (String × RawMembershipValue)) (b : Bool) (k : String)
    (h : (lookupA base k).isSome = true) :
    (lookupA ((l.foldl (sweepStep cfg nowTs) (base, b)).1) k).isSome = true := by
  induction l generalizing base b with
  | nil => exact h
  | cons n rest ih =>
      simp only [List.foldl_cons, sweepStep]
      exact ih _ _ (lookupA_isSome_insertA base n k _ h)

theorem sweepFold_id (cfg : Config) (nowTs : Int) (l : List String)
    (base : List (String × RawMembershipValue)) (b : Bool)
    (h : ∀ n ∈ l, ∃ e, lookupA base n = some (toRaw e) ∧
      IsNormalizedEntry e ∧ ¬ sweepDemotes cfg nowTs e) :
    (l.foldl (sweepStep cfg nowTs) (base, b)).1 = base := by
  induction l generalizing b with
  | nil => rfl
  | cons n rest ih =>
      obtain ⟨e, he, hne, hnd⟩ := h n (List.mem_cons_self _ _)
      simp only [List.foldl_cons, sweepStep, he, Option.getD_some,
        coerce_toRaw hne, sweepApply_of_not_demotes hnd,
        insertA_of_lookup_self he]
      exact ih _ (fun m hm => h m (List.mem_cons_of_mem _ hm))

theorem apply_files (cfg : Config) (nowTs : Int) (st : Catalog) :
    ((applyStorageHeartbeatTimeout cfg nowTs st).1).files = st.files := rfl

theorem apply_chunks (cfg : Config) (nowTs : Int) (st : Catalog) :
    ((applyStorageHeartbeatTimeout cfg nowTs st).1).chunks = st.chunks := rfl

theorem apply_membership_lookup (cfg : Config) (nowTs : Int) (st : Catalog)
    (hnd : cfg.storageNodes.Nodup) {n : String} (hn : n ∈ cfg.storageNodes) :
    lookupA ((applyStorageHeartbeatTimeout cfg nowTs st).1).membership n =
      some (toRaw (sweepApply cfg nowTs (entryObserved cfg nowTs st n))) := by
  unfold applyStorageHeartbeatTimeout entryObserved
  exact sweepFold_lookup cfg nowTs hnd hn _ false

theorem apply_fix {cfg : Config} {st : Catalog} (nowTs : Int)
    (h1 : NormalizedM st.membership) (h2 : CompleteM cfg st.membership)
    (h3 : SweptM cfg nowTs st.membership) :
    (applyStorageHeartbeatTimeout cfg nowTs st).1 = st := by
  unfold applyStorageHeartbeatTimeout
  rw [ensure_fix nowTs h1 h2]
  simp only [sweepFold_id cfg nowTs cfg.storageNodes st.membership false h3]

theorem refresh_files (cfg : Config) (nowTs : Int) (st : Catalog) :
    ((refreshStorageMembership cfg nowTs st).1).files = st.files := rfl

theorem refresh_chunks (cfg : Config) (nowTs : Int) (st : Catalog) :
    ((refreshStorageMembership cfg nowTs st).1).chunks = st.chunks := rfl

theorem refresh_state_eq_apply (cfg : Config) (nowTs : Int) (st : Catalog) :
    (refreshStorageMembership cfg nowTs st).1 =
      (applyStorageHeartbeatTimeout cfg nowTs
        (ensureMembershipSchema cfg nowTs st).1).1 := rfl

theorem ensure_ensure (cfg : Config) (nowTs : Int) (st : Catalog) :
    ensureMembershipSchema cfg nowTs (ensureMembershipSchema cfg nowTs st).1 =
      ((ensureMembershipSchema cfg nowTs st).1, false) :=
  ensure_fix nowTs (ensure_normalized cfg nowTs st) (ensure_complete cfg nowTs st)

theorem entryObserved_ensure (cfg : Config) (nowTs : Int) (st : Catalog)
    (n : String) :
    entryObserved cfg nowTs (ensureMembershipSchema cfg nowTs st).1 n =
      entryObserved cfg nowTs st n := by
  unfold entryObserved
  rw [ensure_ensure]

theorem refresh_membership_lookup (cfg : Config) (nowTs : Int) (st : Catalog)
    (hnd : cfg.storageNodes.Nodup) {n : String} (hn : n ∈ cfg.storageNodes) :
    lookupA ((refreshStorageMembership cfg nowTs st).1).membership n =
      some (toRaw (sweepApply cfg nowTs (entryObserved cfg nowTs st n))) := by
  rw [refresh_state_eq_apply,
    apply_membership_lookup cfg nowTs _ hnd hn, entryObserved_ensure]

theorem refresh_normalized (cfg : Config) (nowTs : Int) (st : Catalog) :
    NormalizedM ((refreshStorageMembership cfg nowTs st).1).membership := by
  rw [refresh_state_eq_apply]
  unfold applyStorageHeartbeatTimeout
  rw [ensure_ensure]
  exact sweepFold_normalized cfg nowTs _ _ _ (ensure_normalized cfg nowTs st)

theorem refresh_complete (cfg : Config) (nowTs : Int) (st : Catalog) :
    CompleteM cfg ((refreshStorageMembership cfg nowTs st).1).membership := by
  rw [refresh_state_eq_apply]
  unfold applyStorageHeartbeatTimeout
  rw [ensure_ensure]
  intro n hn
  exact sweepFold_isSome cfg nowTs _ _ _ n (ensure_complete cfg nowTs st n hn)

theorem refresh_swept (cfg : Config) (nowTs : Int) (st : Catalog)
    (hnd : cfg.storageNodes.Nodup) :
    SweptM cfg nowTs ((refreshStorageMembership cfg nowTs st).1).membership := by
  intro n hn
  refine ⟨sweepApply cfg nowTs (entryObserved cfg nowTs st n),
    refresh_membership_lookup cfg nowTs st hnd hn,
    sweepApply_isNormalized cfg nowTs (coerce_isNormalized _ nowTs),
    sweepApply_not_demotes cfg nowTs _⟩

theorem refresh_fix {cfg : Config} {st : Catalog} (nowTs : Int)
    (h1 : NormalizedM st.membership) (h2 : CompleteM cfg st.membership)
    (h3 : SweptM cfg nowTs st.membership) :
    (refreshStorageMembership cfg nowTs st).1 = st := by
  unfold refreshStorageMembership
  rw [ensure_fix nowTs h1 h2]
  exact apply_fix nowTs h1 h2 h3

theorem refresh_refresh (cfg : Config) (nowTs : Int) (st : Catalog)
    (hnd : cfg.storageNodes.Nodup) :
    (refreshStorageMembership cfg nowTs
      (refreshStorageMembership cfg nowTs st).1).1 =
      (refreshStorageMembership cfg nowTs st).1 :=
  refresh_fix nowTs (refresh_normalized cfg nowTs st)
    (refresh_complete cfg nowTs st) (refresh_swept cfg nowTs st hnd)

/-! ## Lemmas: the alive set -/

theorem snapshot_lookup (cfg : Config) (nowTs : Int) (st : Catalog)
    (k : String) :
    lookupA (membershipSnapshot cfg nowTs st) k =
      (lookupA ((ensureMembershipSchema cfg nowTs st).1).membership k).map
        (fun v => coerceMembershipEntry v nowTs) := by
  unfold membershipSnapshot
  exact lookupA_map_value (fun v => coerceMembershipEntry v nowTs) _ k

theorem entryObserved_isNormalized (cfg : Config) (nowTs : Int) (st : Catalog)
    (n : String) : IsNormalizedEntry (entryObserved cfg nowTs st n) := by
  unfold entryObserved
  exact coerce_isNormalized _ nowTs

theorem getAlive_mem {cfg : Config} {nowTs : Int} {st : Catalog} {n : String} :
    n ∈ getAliveStorageNodes cfg nowTs st ↔
      n ∈ cfg.storageNodes ∧ ∃ v,
        lookupA ((ensureMembershipSchema cfg nowTs st).1).membership n = some v ∧
        (coerceMembershipEntry v nowTs).status = "alive" := by
  unfold getAliveStorageNodes
  rw [List.mem_filter]
  constructor
  · rintro ⟨hmem, hcond⟩
    refine ⟨hmem, ?_⟩
    rcases hv : lookupA ((ensureMembershipSchema cfg nowTs st).1).membership n
      with _ | v
    · rw [snapshot_lookup, hv] at hcond
      simp at hcond
    · refine ⟨v, rfl, ?_⟩
      rw [snapshot_lookup, hv] at hcond
      simpa using hcond
  · rintro ⟨hmem, v, hv, hstatus⟩
    refine ⟨hmem, ?_⟩
    rw [snapshot_lookup, hv]
    simpa using hstatus

theorem getAlive_subset (cfg : Config) (nowTs : Int) (st : Catalog) :
    getAliveStorageNodes cfg nowTs st ⊆ cfg.storageNodes :=
  fun _ hn => (List.mem_filter.mp hn).1

theorem getAlive_nodup (cfg : Config) (nowTs : Int) (st : Catalog)
    (hnd : cfg.storageNodes.Nodup) :
    (getAliveStorageNodes cfg nowTs st).Nodup :=
  hnd.filter _

theorem getAlive_refresh_subset (cfg : Config) (nowTs : Int) (st : Catalog)
    (hnd : cfg.storageNodes.Nodup) :
    getAliveStorageNodes cfg nowTs (refreshStorageMembership cfg nowTs st).1 ⊆
      getAliveStorageNodes cfg nowTs st := by
  intro n hn
  rw [getAlive_mem] at hn
  obtain ⟨hmem, v, hv, hstatus⟩ := hn
  rw [ensure_fix nowTs (refresh_normalized cfg nowTs st)
    (refresh_complete cfg nowTs st),
    refresh_membership_lookup cfg nowTs st hnd hmem] at hv
  have hv' : v = toRaw (sweepApply cfg nowTs (entryObserved cfg nowTs st n)) :=
    (Option.some.inj hv).symm
  subst hv'
  rw [coerce_toRaw (sweepApply_isNormalized cfg nowTs
    (entryObserved_isNormalized cfg nowTs st n)) nowTs] at hstatus
  have hobs : (entryObserved cfg nowTs st n).status = "alive" := by
    by_cases hdem : sweepDemotes cfg nowTs (entryObserved cfg nowTs st n)
    · rw [sweepApply, if_pos hdem] at hstatus
      simp at hstatus
    · rwa [sweepApply_of_not_demotes hdem] at hstatus
  rw [getAlive_mem]
  refine ⟨hmem, ?_⟩
  have hsome := ensure_complete cfg nowTs st n hmem
  rw [Option.isSome_iff_exists] at hsome
  obtain ⟨v0, hv0⟩ := hsome
  refine ⟨v0, hv0, ?_⟩
  unfold entryObserved at hobs
  rwa [hv0, Option.getD_some] at hobs

theorem getAlive_refresh_length_le (cfg : Config) (nowTs : Int) (st : Catalog)
    (hnd : cfg.storageNodes.Nodup) :
    (getAliveStorageNodes cfg nowTs
        (refreshStorageMembership cfg nowTs st).1).length ≤
      (getAliveStorageNodes cfg nowTs st).length :=
  (List.subperm_of_subset (getAlive_nodup cfg nowTs _ hnd)
    (getAlive_refresh_subset cfg nowTs st hnd)).length_le

theorem getAlive_congr {cfg : Config} {nowTs : Int} {st st' : Catalog}
    (h : st.membership = st'.membership) :
    getAliveStorageNodes cfg nowTs st = getAliveStorageNodes cfg nowTs st' := by
  unfold getAliveStorageNodes membershipSnapshot ensureMembershipSchema
  rw [h]

/-! ## Lemmas: replica repair -/

theorem subperm_nodup {l1 l2 : List String} (h : List.Subperm l1 l2)
    (hn : l2.Nodup) : l1.Nodup := by
  obtain ⟨l, hp, hs⟩ := h
  exact hp.nodup_iff.mp (hs.nodup hn)

theorem nodup_subset_length_le {l m : List String} (hnd : l.Nodup)
    (hsub : ∀ x ∈ l, x ∈ m) : l.length ≤ m.length :=
  (List.subperm_of_subset hnd hsub).length_le

theorem validSampler_take : ValidSampler takeSample := by
  intro l n hn
  refine ⟨by simpa [takeSample] using hn, ?_⟩
  exact (List.take_sublist n l).subperm

theorem repairKept_nodup (cur alive : List String) :
    (repairKept cur alive).Nodup :=
  (uniqueNodes_nodup cur).filter _

theorem repairKept_subset_alive {cur alive : List String} {x : String}
    (h : x ∈ repairKept cur alive) : x ∈ alive := by
  have := (List.mem_filter.mp h).2
  simpa using this

theorem repairKept_ne_empty {cur alive : List String} {x : String}
    (h : x ∈ repairKept cur alive) : x ≠ "" :=
  (mem_uniqueNodes (List.mem_filter.mp h).1).2

theorem repairCandidates_subset_alive {cur alive : List String} {x : String}
    (h : x ∈ repairCandidates cur alive) : x ∈ alive :=
  (List.mem_filter.mp h).1

theorem repairCandidates_not_kept {cur alive : List String} {x : String}
    (h : x ∈ repairCandidates cur alive) : x ∉ repairKept cur alive := by
  have := (List.mem_filter.mp h).2
  simpa using this

theorem repairKept_length_le (cur alive : List String) :
    (repairKept cur alive).length ≤ alive.length :=
  nodup_subset_length_le (repairKept_nodup cur alive)
    (fun _ hx => repairKept_subset_alive hx)

theorem repairKept_add_candidates_le (cur alive : List String) :
    (repairKept cur alive).length + (repairCandidates cur alive).length ≤
      alive.length := by
  have hpart :=
    List.length_eq_length_filter_add
      (l := alive) (fun n => decide (n ∉ repairKept cur alive))
  have hk : (repairKept cur alive).length ≤
      (alive.filter fun n => ! decide (n ∉ repairKept cur alive)).length := by
    refine nodup_subset_length_le (repairKept_nodup cur alive) ?_
    intro x hx
    refine List.mem_filter.mpr ⟨repairKept_subset_alive hx, ?_⟩
    simp [hx]
  have hc : (repairCandidates cur alive).length =
      (alive.filter fun n => decide (n ∉ repairKept cur alive)).length := rfl
  omega

theorem repair_eq_of_le {cfg : Config}
    (sample : List String → Nat → List String) {cur alive : List String}
    (h : cfg.replicationFactor ≤ (repairKept cur alive).length) :
    repairChunkReplicas cfg sample cur alive =
      .ok ((repairKept cur alive).take cfg.replicationFactor) := by
  unfold repairChunkReplicas
  rw [if_pos h]

theorem repair_eq_of_enough {cfg : Config}
    (sample : List String → Nat → List String) {cur alive : List String}
    (h1 : (repairKept cur alive).length < cfg.replicationFactor)
    (h2 : cfg.replicationFactor - (repairKept cur alive).length ≤
      (repairCandidates cur alive).length) :
    repairChunkReplicas cfg sample cur alive =
      .ok (repairKept cur alive ++ sample (repairCandidates cur alive)
        (cfg.replicationFactor - (repairKept cur alive).length)) := by
  unfold repairChunkReplicas
  rw [if_neg (by omega), if_neg (by omega)]

theorem repair_eq_insufficient {cfg : Config}
    (sample : List String → Nat → List String) {cur alive : List String}
    (h1 : (repairKept cur alive).length < cfg.replicationFactor)
    (h2 : (repairCandidates cur alive).length <
      cfg.replicationFactor - (repairKept cur alive).length) :
    repairChunkReplicas cfg sample cur alive = .error .insufficient := by
  unfold repairChunkReplicas
  rw [if_neg (by omega), if_pos h2]

theorem repair_ok {cfg : Config} {sample : List String → Nat → List String}
    (hs : ValidSampler sample) {cur alive r : List String}
    (h : repairChunkReplicas cfg sample cur alive = .ok r) :
    r.length = cfg.replicationFactor ∧
    cfg.replicationFactor ≤ alive.length ∧
    (∀ x ∈ r, x ∈ alive) ∧
    (alive.Nodup → r.Nodup) := by
  unfold repairChunkReplicas at h
  by_cases h1 : cfg.replicationFactor ≤ (repairKept cur alive).length
  · rw [if_pos h1] at h
    have hr : r = (repairKept cur alive).take cfg.replicationFactor :=
      (Except.ok.inj h).symm
    subst hr
    refine ⟨by simp [h1, Nat.min_eq_left h1], ?_, ?_, ?_⟩
    · exact le_trans h1 (repairKept_length_le cur alive)
    · intro x hx
      exact repairKept_subset_alive (List.mem_of_mem_take hx)
    · intro _
      exact ((List.take_sublist _ _).nodup (repairKept_nodup cur alive))
  · rw [if_neg h1] at h
    by_cases h2 : (repairCandidates cur alive).length <
        cfg.replicationFactor - (repairKept cur alive).length
    · rw [if_pos h2] at h
      cases h
    · rw [if_neg h2] at h
      have hr : r = repairKept cur alive ++
          sample (repairCandidates cur alive)
            (cfg.replicationFactor - (repairKept cur alive).length) :=
        (Except.ok.inj h).symm
      subst hr
      obtain ⟨hslen, hsperm⟩ :=
        hs (repairCandidates cur alive)
          (cfg.replicationFactor - (repairKept cur alive).length) (by omega)
      have hlen : (repairKept cur alive).length +
          (cfg.replicationFactor - (repairKept cur alive).length) =
          cfg.replicationFactor := by omega
      refine ⟨by simp [hslen]; omega, ?_, ?_, ?_⟩
      · have := repairKept_add_candidates_le cur alive
        omega
      · intro x hx
        rcases List.mem_append.mp hx with hx | hx
        · exact repairKept_subset_alive hx
        · exact repairCandidates_subset_alive (hsperm.subset hx)
      · intro hand
        rw [List.nodup_append]
        refine ⟨repairKept_nodup cur alive, ?_, ?_⟩
        · exact subperm_nodup hsperm (hand.filter _)
        · intro x hx hxs
          exact repairCandidates_not_kept (hsperm.subset hxs) hx

theorem repair_fixed (cfg : Config)
    (sample : List String → Nat → List String) {cur alive : List String}
    (hnd : cur.Nodup) (hne : ∀ x ∈ cur, x ≠ "")
    (hsub : ∀ x ∈ cur, x ∈ alive)
    (hlen : cur.length = cfg.replicationFactor) :
    repairChunkReplicas cfg sample cur alive = .ok cur := by
  have hkept : repairKept cur alive = cur := by
    unfold repairKept
    rw [uniqueNodes_eq_self hnd hne]
    exact List.filter_eq_self.mpr (fun x hx => by simp [hsub x hx])
  rw [repair_eq_of_le sample (by rw [hkept, hlen]), hkept,
    List.take_of_length_le (le_of_eq hlen)]

/-! ## Lemmas: the load-and-refresh prologue -/

theorem load_fst (cfg : Config) (nowTs : Int) (st : Catalog) :
    (loadStateWithMembershipRefresh cfg nowTs st).1 =
      (refreshStorageMembership cfg nowTs st).1 := rfl

theorem load_snd_cases (cfg : Config) (nowTs : Int) (st : Catalog) :
    (loadStateWithMembershipRefresh cfg nowTs st).2 =
        (refreshStorageMembership cfg nowTs st).1 ∨
      (loadStateWithMembershipRefresh cfg nowTs st).2 = st := by
  unfold loadStateWithMembershipRefresh
  by_cases h : (refreshStorageMembership cfg nowTs st).2 = true
  · exact Or.inl (by simp [h])
  · exact Or.inr (by simp [h])

theorem load_snd_files (cfg : Config) (nowTs : Int) (st : Catalog) :
    ((loadStateWithMembershipRefresh cfg nowTs st).2).files = st.files := by
  rcases load_snd_cases cfg nowTs st with h | h <;> rw [h]
  exact refresh_files cfg nowTs st

theorem load_snd_chunks (cfg : Config) (nowTs : Int) (st : Catalog) :
    ((loadStateWithMembershipRefresh cfg nowTs st).2).chunks = st.chunks := by
  rcases load_snd_cases cfg nowTs st with h | h <;> rw [h]
  exact refresh_chunks cfg nowTs st

theorem load_of_fix {cfg : Config} {nowTs : Int} {st : Catalog}
    (h : (refreshStorageMembership cfg nowTs st).1 = st) :
    loadStateWithMembershipRefresh cfg nowTs st = (st, st) := by
  unfold loadStateWithMembershipRefresh
  simp only [h]
  exact Prod.ext rfl (ite_self st)

/-! ## Lemmas: decomposition of the write handlers -/

theorem chunkRegister_ok {cfg : Config}
    {sample : List String → Nat → List String} {nowTs : Int}
    {st st1 : Catalog} {fp : String} {r1 : List String}
    (h : chunkRegister cfg sample nowTs st fp = (st1, .ok r1)) :
    cfg.replicationFactor ≤
      (getAliveStorageNodes cfg nowTs
        (refreshStorageMembership cfg nowTs st).1).length ∧
    ((lookupA ((refreshStorageMembership cfg nowTs st).1).chunks fp = none ∧
        chooseReplicas sample
          (getAliveStorageNodes cfg nowTs (refreshStorageMembership cfg nowTs st).1)
          cfg.replicationFactor = .ok r1 ∧
        st1 = { (refreshStorageMembership cfg nowTs st).1 with
          chunks := insertA ((refreshStorageMembership cfg nowTs st).1).chunks fp r1 }) ∨
      (∃ cur, lookupA ((refreshStorageMembership cfg nowTs st).1).chunks fp = some cur ∧
        repairChunkReplicas cfg sample cur
          (getAliveStorageNodes cfg nowTs (refreshStorageMembership cfg nowTs st).1) = .ok r1 ∧
        ((r1 ≠ uniqueNodes cur ∧
            st1 = { (refreshStorageMembership cfg nowTs st).1 with
              chunks := insertA ((refreshStorageMembership cfg nowTs st).1).chunks fp r1 }) ∨
          (r1 = uniqueNodes cur ∧
            st1 = (loadStateWithMembershipRefresh cfg nowTs st).2)))) := by
  unfold chunkRegister at h
  simp only [load_fst] at h
  by_cases hg : (getAliveStorageNodes cfg nowTs
      (refreshStorageMembership cfg nowTs st).1).length < cfg.replicationFactor
  · rw [if_pos hg] at h
    exact absurd (congrArg Prod.snd h) (by simp)
  · rw [if_neg hg] at h
    refine ⟨by omega, ?_⟩
    rcases hlk : lookupA ((refreshStorageMembership cfg nowTs st).1).chunks fp
      with _ | cur
    · rw [hlk] at h
      simp only [] at h
      rcases hcr : chooseReplicas sample
          (getAliveStorageNodes cfg nowTs (refreshStorageMembership cfg nowTs st).1)
          cfg.replicationFactor with e | assigned
      · rw [hcr] at h
        exact absurd (congrArg Prod.snd h) (by simp)
      · rw [hcr] at h
        have h2 := congrArg Prod.snd h
        simp only at h2
        have hass : assigned = r1 := Except.ok.inj h2
        subst hass
        exact Or.inl ⟨rfl, rfl, (congrArg Prod.fst h).symm⟩
    · rw [hlk] at h
      simp only [] at h
      rcases hrep : repairChunkReplicas cfg sample cur
          (getAliveStorageNodes cfg nowTs (refreshStorageMembership cfg nowTs st).1)
          with e | repaired
      · rw [hrep] at h
        exact absurd (congrArg Prod.snd h) (by simp)
      · rw [hrep] at h
        simp only [] at h
        by_cases hne : repaired ≠ uniqueNodes cur
        · rw [if_pos hne] at h
          have h2 := congrArg Prod.snd h
          simp only at h2
          have hass : repaired = r1 := Except.ok.inj h2
          subst hass
          exact Or.inr ⟨cur, rfl, hrep,
            Or.inl ⟨hne, (congrArg Prod.fst h).symm⟩⟩
        · rw [if_neg hne] at h
          have h2 := congrArg Prod.snd h
          simp only at h2
          have hass : repaired = r1 := Except.ok.inj h2
          subst hass
          push_neg at hne
          exact Or.inr ⟨cur, rfl, hrep,
            Or.inr ⟨hne, (congrArg Prod.fst h).symm⟩⟩

theorem fileCommit_ok {cfg : Config}
    {sample : List String → Nat → List String} {nowTs : Int}
    {st st1 : Catalog} {name : String} {fps : List String}
    (h : fileCommit cfg sample nowTs st name fps = (st1, .ok ())) :
    (fps.filter fun fp =>
      (lookupA ((refreshStorageMembership cfg nowTs st).1).chunks fp).isNone) = [] ∧
    cfg.replicationFactor ≤
      (getAliveStorageNodes cfg nowTs
        (refreshStorageMembership cfg nowTs st).1).length ∧
    ∃ chunks2,
      commitRepairLoop cfg sample
        (getAliveStorageNodes cfg nowTs (refreshStorageMembership cfg nowTs st).1)
        ((refreshStorageMembership cfg nowTs st).1).chunks (dedupFirst fps) =
          .ok chunks2 ∧
      st1 = { (refreshStorageMembership cfg nowTs st).1 with
        files := insertA ((refreshStorageMembership cfg nowTs st).1).files name fps
        chunks := chunks2 } := by
  unfold fileCommit at h
  simp only [load_fst] at h
  by_cases hm : (fps.filter fun fp =>
      (lookupA ((refreshStorageMembership cfg nowTs st).1).chunks fp).isNone) ≠ []
  · rw [if_pos hm] at h
    exact absurd (congrArg Prod.snd h) (by simp)
  · rw [if_neg hm] at h
    push_neg at hm
    refine ⟨hm, ?_⟩
    by_cases hg : (getAliveStorageNodes cfg nowTs
        (refreshStorageMembership cfg nowTs st).1).length < cfg.replicationFactor
    · rw [if_pos hg] at h
      exact absurd (congrArg Prod.snd h) (by simp)
    · rw [if_neg hg] at h
      refine ⟨by omega, ?_⟩
      rcases hloop : commitRepairLoop cfg sample
          (getAliveStorageNodes cfg nowTs (refreshStorageMembership cfg nowTs st).1)
          ((refreshStorageMembership cfg nowTs st).1).chunks (dedupFirst fps)
          with e | chunks2
      · rw [hloop] at h
        exact absurd (congrArg Prod.snd h) (by simp)
      · rw [hloop] at h
        exact ⟨chunks2, rfl, (congrArg Prod.fst h).symm⟩

/-! ## Claim theorems -/

/-- C1: `repair(current, alive, k)` (`_repair_chunk_replicas` with
`k = REPLICATION_FACTOR`) keeps the order-preserving deduplication of
`current` restricted to `alive`; when at least `k` nodes are kept it returns
the first `k` of them; otherwise it extends the kept nodes with
`k - |kept|` fresh nodes sampled from `alive` minus the kept ones, and it
fails with `Insufficient` (HTTP 500) exactly when fewer candidates than that
exist.  Every successful result has size `min(k, |alive|)` and is free of
duplicates whenever `alive` is. -/
theorem C1_repair_spec (cfg : Config)
    (sample : List String → Nat → List String) (hs : ValidSampler sample)
    (current alive : List String) :
    (cfg.replicationFactor ≤ (repairKept current alive).length →
      repairChunkReplicas cfg sample current alive =
        .ok ((repairKept current alive).take cfg.replicationFactor)) ∧
    ((repairKept current alive).length < cfg.replicationFactor →
      cfg.replicationFactor - (repairKept current alive).length ≤
        (repairCandidates current alive).length →
      repairChunkReplicas cfg sample current alive =
        .ok (repairKept current alive ++
          sample (repairCandidates current alive)
            (cfg.replicationFactor - (repairKept current alive).length))) ∧
    ((repairCandidates current alive).length <
        cfg.replicationFactor - (repairKept current alive).length →
      repairChunkReplicas cfg sample current alive = .error .insufficient ∧
      statusCode .insufficient = 500) ∧
    (∀ r, repairChunkReplicas cfg sample current alive = .ok r →
      r.length = min cfg.replicationFactor alive.length ∧
      (alive.Nodup → r.Nodup)) := by
  refine ⟨fun h => repair_eq_of_le sample h,
    fun h1 h2 => repair_eq_of_enough sample h1 h2, fun h2 => ?_, fun r h => ?_⟩
  · have h1 : (repairKept current alive).length < cfg.replicationFactor := by
      omega
    exact ⟨repair_eq_insufficient sample h1 h2, rfl⟩
  · obtain ⟨hlen, hR, _, hnd⟩ := repair_ok hs h
    exact ⟨by omega, hnd⟩

/-- C1 witness: a concrete repair that keeps the alive replica `s1`, drops
the dead `sX`, and samples `s2` to reach the replication factor 2. -/
theorem C1_repair_spec_witness :
    repairChunkReplicas cfgW takeSample ["s1", "sX"] ["s1", "s2"] =
      .ok ["s1", "s2"] := by
  have h := (C1_repair_spec cfgW takeSample validSampler_take
    ["s1", "sX"] ["s1", "s2"]).2.1 (by decide) (by decide)
  rw [h]
  decide

/-- C2: `chunk_check` reports `exists = true` iff the fingerprint is a key
of the chunk record and the deduplicated stored replica set restricted to
the currently-alive nodes (after the load-time sweep) has size at least
`REPLICATION_FACTOR`; the returned `locations` are exactly that
alive-filtered replica list, and empty when the chunk is unknown. -/
theorem chunkCheck_resp (cfg : Config) (nowTs : Int) (st : Catalog)
    (fp : String) :
    (chunkCheck cfg nowTs st fp).2 =
      match lookupA st.chunks fp with
      | none => { chunkExists := false, locations := [] }
      | some reps =>
          { chunkExists := cfg.replicationFactor ≤
              ((uniqueNodes reps).filter fun n =>
                decide (n ∈ getAliveStorageNodes cfg nowTs
                  (refreshStorageMembership cfg nowTs st).1)).length
            locations := (uniqueNodes reps).filter fun n =>
              decide (n ∈ getAliveStorageNodes cfg nowTs
                (refreshStorageMembership cfg nowTs st).1) } := by
  unfold chunkCheck
  simp only [load_fst, refresh_chunks]
  rcases hl : lookupA st.chunks fp with _ | reps <;> simp only []

theorem C2_chunk_check_spec (cfg : Config) (nowTs : Int) (st : Catalog)
    (fp : String) :
    ((chunkCheck cfg nowTs st fp).2.chunkExists = true ↔
      ∃ reps, lookupA st.chunks fp = some reps ∧
        cfg.replicationFactor ≤
          ((uniqueNodes reps).filter fun n =>
            decide (n ∈ getAliveStorageNodes cfg nowTs
              (refreshStorageMembership cfg nowTs st).1)).length) ∧
    (∀ reps, lookupA st.chunks fp = some reps →
      (chunkCheck cfg nowTs st fp).2.locations =
        (uniqueNodes reps).filter fun n =>
          decide (n ∈ getAliveStorageNodes cfg nowTs
            (refreshStorageMembership cfg nowTs st).1)) ∧
    (lookupA st.chunks fp = none →
      (chunkCheck cfg nowTs st fp).2.locations = []) := by
  have hr := chunkCheck_resp cfg nowTs st fp
  refine ⟨?_, fun reps hreps => by rw [hr, hreps], fun hnone => by rw [hr, hnone]⟩
  rw [hr]
  rcases hl : lookupA st.chunks fp with _ | reps
  · simp
  · simp [decide_eq_true_eq]

/-- C2 witness: on a catalog holding chunk `"a"` on the two alive nodes,
`chunk_check` reports existence with both locations. -/
theorem C2_chunk_check_spec_witness :
    (chunkCheck cfgW 0 stW1 "a").2.chunkExists = true ∧
    (chunkCheck cfgW 0 stW1 "a").2.locations = ["s1", "s2"] := by
  constructor
  · exact (C2_chunk_check_spec cfgW 0 stW1 "a").1.mpr
      ⟨["s1", "s2"], by decide, by decide⟩
  · have h := (C2_chunk_check_spec cfgW 0 stW1 "a").2.1 ["s1", "s2"] (by decide)
    rw [h]
    decide

/-- C10 counterexample: the raw status string `"Alive"` is not one of
`alive`, `suspected`, `dead`, yet the schema coercion produces status
`"alive"`, not `"dead"` — the source lowercases and trims before the
membership test. -/
theorem C10_counterexample :
    ("Alive" : String) ∉ (["alive", "suspected", "dead"] : List String) ∧
    (coerceMembershipEntry (RawMembershipValue.strVal "Alive") 0).status =
      "alive" := by
  constructor
  · decide
  · decide

/-- C10 amended: during membership schema normalization a status string
whose trimmed, lowercased form is not one of `alive`, `suspected`, `dead`
is silently coerced to a structured entry with status `dead` (for both the
legacy bare-string form and the structured form), and every coercion
succeeds with a status drawn from the three known states — the document is
never treated as corrupt. -/
theorem C10_amended_status_coercion (nowTs : Int) :
    (∀ s : String,
      pyLower (pyStrip s) ∉ (["alive", "dead", "suspected"] : List String) →
      (coerceMembershipEntry (.strVal s) nowTs).status = "dead" ∧
      ∀ ts hbAt, (coerceMembershipEntry
        (.dictVal (some s) ts hbAt) nowTs).status = "dead") ∧
    (∀ raw : RawMembershipValue,
      (coerceMembershipEntry raw nowTs).status = "alive" ∨
      (coerceMembershipEntry raw nowTs).status = "dead" ∨
      (coerceMembershipEntry raw nowTs).status = "suspected") := by
  constructor
  · intro s hs
    have hns : normalizeStatus s = "dead" := by
      unfold normalizeStatus
      rw [if_neg]
      intro hc
      rcases hc with hc | hc | hc <;> simp [hc] at hs
    constructor
    · exact hns
    · intro ts hbAt
      exact hns
  · intro raw
    cases raw with
    | strVal s => exact normalizeStatus_cases s
    | otherVal => exact normalizeStatus_cases "alive"
    | dictVal statusRaw tsRaw atRaw => exact normalizeStatus_cases _

/-- C10 witness: the unknown status string `"banana"` is coerced to a dead
structured entry. -/
theorem C10_amended_status_coercion_witness :
    (coerceMembershipEntry (RawMembershipValue.strVal "banana") 0).status =
      "dead" :=
  ((C10_amended_status_coercion 0).1 "banana" (by decide)).1

/-- C8: `storage_heartbeat` rejects with `BadRequest` (HTTP 400) exactly
when the supplied node id is empty after trimming or is not a configured
storage node, and a rejected request leaves the persisted catalog untouched
(the validation runs before the state is even loaded). -/
theorem C8_heartbeat_validation (cfg : Config) (nowTs : Int) (st : Catalog)
    (raw : String) :
    ((storageHeartbeat cfg nowTs st raw).2 = .error .badRequest ↔
      (pyStrip raw = "" ∨ pyStrip raw ∉ cfg.storageNodes)) ∧
    ((pyStrip raw = "" ∨ pyStrip raw ∉ cfg.storageNodes) →
      storageHeartbeat cfg nowTs st raw = (st, .error .badRequest)) ∧
    statusCode .badRequest = 400 := by
  refine ⟨?_, ?_, rfl⟩ <;>
    (unfold storageHeartbeat
     by_cases h1 : pyStrip raw = ""
     · simp [h1]
     · by_cases h2 : pyStrip raw ∈ cfg.storageNodes
       · simp [h1, h2]
       · simp [h1, h2])

/-- C8 witness: a whitespace-only node id is rejected with the catalog
unchanged. -/
theorem C8_heartbeat_validation_witness :
    storageHeartbeat cfgW 0 stW " " = (stW, .error .badRequest) :=
  (C8_heartbeat_validation cfgW 0 stW " ").2.1 (Or.inl (by decide))

/-- C9 counterexample: `chunk_check` is not persistence-free for every
starting catalog — on a catalog whose node `s1` has not heartbeat for longer
than the timeout, the load-time sweep demotes it and the handler persists
that change, so the document on disk after the call differs from the one
before. -/
theorem C9_counterexample : (chunkCheck cfgW 100 stW "a").1 ≠ stW := by decide

/-- C9 amended: `chunk_check` writes nothing of its own — the persisted
document after the call is exactly what the shared load-time membership
refresh leaves behind; its `files` and `chunks` sections always equal the
pre-state's, and whenever the sweep reports no change the persisted
document is identical to the pre-state. -/
theorem C9_amended_check_persistence (cfg : Config) (nowTs : Int)
    (st : Catalog) (fp : String) :
    (chunkCheck cfg nowTs st fp).1 =
      (loadStateWithMembershipRefresh cfg nowTs st).2 ∧
    ((chunkCheck cfg nowTs st fp).1).files = st.files ∧
    ((chunkCheck cfg nowTs st fp).1).chunks = st.chunks ∧
    ((refreshStorageMembership cfg nowTs st).2 = false →
      (chunkCheck cfg nowTs st fp).1 = st) := by
  have h1 : (chunkCheck cfg nowTs st fp).1 =
      (loadStateWithMembershipRefresh cfg nowTs st).2 := by
    unfold chunkCheck
    rcases hl : lookupA ((loadStateWithMembershipRefresh cfg nowTs st).1).chunks fp
      with _ | reps <;> simp only [hl]
  refine ⟨h1, ?_, ?_, ?_⟩
  · rw [h1]; exact load_snd_files cfg nowTs st
  · rw [h1]; exact load_snd_chunks cfg nowTs st
  · intro hf
    rw [h1]
    unfold loadStateWithMembershipRefresh
    simp [hf]

/-- C9 witness: on a catalog the sweep does not change, `chunk_check`
leaves the persisted document identical. -/
theorem C9_amended_check_persistence_witness :
    (chunkCheck cfgW 0 stW "a").1 = stW :=
  (C9_amended_check_persistence cfgW 0 stW "a").2.2.2 (by decide)

/-- C3: a successful `file_commit(name, fps)` followed by `file_get(name)`
returns chunk items whose fingerprints are exactly `fps`, in order, with
duplicates preserved at their positions. -/
theorem C3_commit_get_roundtrip (cfg : Config)
    (sample : List String → Nat → List String) (nowTs nowTs2 : Int)
    (st st1 : Catalog) (name : String) (fps : List String)
    (_hne : fps ≠ [])
    (hc : fileCommit cfg sample nowTs st name fps = (st1, .ok ())) :
    ∃ items, (fileGet cfg nowTs2 st1 name).2 = .ok items ∧
      items.map Prod.fst = fps := by
  obtain ⟨hmiss, hg, chunks2, hloop, hst1⟩ := fileCommit_ok hc
  have hfiles : st1.files =
      insertA ((refreshStorageMembership cfg nowTs st).1).files name fps := by
    rw [hst1]
  have hlk : lookupA ((refreshStorageMembership cfg nowTs2 st1).1).files name =
      some fps := by
    rw [refresh_files, hfiles, lookupA_insertA_self]
  unfold fileGet
  simp only [load_fst, hlk]
  refine ⟨_, rfl, ?_⟩
  simp [Function.comp_def]

/-- C3 witness: committing `["a", "a"]` as file `"f"` and reading it back
yields the fingerprints `["a", "a"]` in order. -/
theorem C3_commit_get_roundtrip_witness :
    ∃ items, (fileGet cfgW 0 stW2 "f").2 = .ok items ∧
      items.map Prod.fst = ["a", "a"] :=
  C3_commit_get_roundtrip cfgW takeSample 0 0 stW1 stW2 "f" ["a", "a"]
    (by decide) (by decide)

/-- C6 counterexample: with no alive storage node and an unregistered
fingerprint, `file_commit` fails with `Unregistered`, not with
`Insufficient` — the registration check runs first, so "fails with
Insufficient whenever fewer than R nodes are alive" does not hold as
stated. -/
theorem C6_counterexample :
    (getAliveStorageNodes cfgEmpty 0
      (refreshStorageMembership cfgEmpty 0 stEmpty).1).length <
        cfgEmpty.replicationFactor ∧
    (fileCommit cfgEmpty takeSample 0 stEmpty "f" ["a"]).2 =
      .error (.unregistered ["a"]) ∧
    ApiError.unregistered ["a"] ≠ ApiError.insufficient := by decide

theorem fileCommit_ok_or_error (cfg : Config)
    (sample : List String → Nat → List String) (nowTs : Int) (st : Catalog)
    (name : String) (fps : List String) :
    (fileCommit cfg sample nowTs st name fps).2 = .ok () ∨
    (fileCommit cfg sample nowTs st name fps).1 =
      (loadStateWithMembershipRefresh cfg nowTs st).2 := by
  unfold fileCommit
  simp only [load_fst]
  by_cases hm : (fps.filter fun fp =>
      (lookupA ((refreshStorageMembership cfg nowTs st).1).chunks fp).isNone) ≠ []
  · rw [if_pos hm]
    exact Or.inr rfl
  · rw [if_neg hm]
    by_cases hg : (getAliveStorageNodes cfg nowTs
        (refreshStorageMembership cfg nowTs st).1).length < cfg.replicationFactor
    · rw [if_pos hg]
      exact Or.inr rfl
    · rw [if_neg hg]
      rcases hloop : commitRepairLoop cfg sample
          (getAliveStorageNodes cfg nowTs (refreshStorageMembership cfg nowTs st).1)
          ((refreshStorageMembership cfg nowTs st).1).chunks (dedupFirst fps)
          with e | chunks2
      · exact Or.inr rfl
      · exact Or.inl rfl

/-- C6 amended: `file_commit` fails with `Unregistered` (HTTP 400) carrying
exactly the requested fingerprints absent from the chunk record whenever
there is any such fingerprint; when all requested fingerprints are
registered it fails with `Insufficient` (HTTP 500) whenever fewer than
`REPLICATION_FACTOR` nodes are alive; and every failure leaves the `files`
and `chunks` sections of the persisted catalog unchanged. -/
theorem C6_amended_commit_errors (cfg : Config)
    (sample : List String → Nat → List String) (nowTs : Int) (st : Catalog)
    (name : String) (fps : List String) :
    ((fps.filter fun fp => (lookupA st.chunks fp).isNone) ≠ [] →
      (fileCommit cfg sample nowTs st name fps).2 =
        .error (.unregistered
          (fps.filter fun fp => (lookupA st.chunks fp).isNone)) ∧
      statusCode (.unregistered
        (fps.filter fun fp => (lookupA st.chunks fp).isNone)) = 400) ∧
    ((fps.filter fun fp => (lookupA st.chunks fp).isNone) = [] →
      (getAliveStorageNodes cfg nowTs
        (refreshStorageMembership cfg nowTs st).1).length <
          cfg.replicationFactor →
      (fileCommit cfg sample nowTs st name fps).2 = .error .insufficient ∧
      statusCode ApiError.insufficient = 500) ∧
    (∀ e, (fileCommit cfg sample nowTs st name fps).2 = .error e →
      ((fileCommit cfg sample nowTs st name fps).1).files = st.files ∧
      ((fileCommit cfg sample nowTs st name fps).1).chunks = st.chunks) := by
  have hch : ((refreshStorageMembership cfg nowTs st).1).chunks = st.chunks :=
    refresh_chunks cfg nowTs st
  refine ⟨?_, ?_, ?_⟩
  · intro hm
    unfold fileCommit
    simp only [load_fst, hch]
    rw [if_pos hm]
    exact ⟨rfl, rfl⟩
  · intro hm hg
    unfold fileCommit
    simp only [load_fst, hch]
    rw [if_neg (fun hcon => hcon hm), if_pos hg]
    exact ⟨rfl, rfl⟩
  · intro e he
    rcases fileCommit_ok_or_error cfg sample nowTs st name fps with hok | hfst
    · rw [hok] at he
      cases he
    · rw [hfst]
      exact ⟨load_snd_files cfg nowTs st, load_snd_chunks cfg nowTs st⟩

/-- C6 witness: committing an unregistered fingerprint fails with
`Unregistered(["a"])` and leaves files and chunks untouched. -/
theorem C6_amended_commit_errors_witness :
    (fileCommit cfgW takeSample 0 stW "f" ["a"]).2 =
      .error (.unregistered ["a"]) ∧
    ((fileCommit cfgW takeSample 0 stW "f" ["a"]).1).files = stW.files ∧
    ((fileCommit cfgW takeSample 0 stW "f" ["a"]).1).chunks = stW.chunks := by
  have h := (C6_amended_commit_errors cfgW takeSample 0 stW "f" ["a"]).1
    (by decide)
  have h2 := (C6_amended_commit_errors cfgW takeSample 0 stW "f" ["a"]).2.2
  refine ⟨?_, ?_⟩
  · exact h.1.trans (by decide)
  · exact h2 (.unregistered ["a"]) (h.1.trans (by decide))

theorem insertA_normalized {m : List (String × RawMembershipValue)}
    {n : String} {e : MemEntry} (hm : NormalizedM m)
    (he : IsNormalizedEntry e) : NormalizedM (insertA m n (toRaw e)) :=
  fun kv hkv => (mem_insertA hkv).elim
    (fun h => ⟨e, by rw [h], he⟩) (fun h => hm kv h)

theorem insertA_complete {cfg : Config}
    {m : List (String × RawMembershipValue)} {n : String}
    {v : RawMembershipValue} (hm : CompleteM cfg m) :
    CompleteM cfg (insertA m n v) :=
  fun k hk => lookupA_isSome_insertA m n k v (hm k hk)

theorem mark_membership (cfg : Config) (t : Int) (st : Catalog) (n : String) :
    ((markStorageHeartbeat cfg t st n).1).membership =
      insertA ((ensureMembershipSchema cfg t st).1).membership n
        (toRaw (newMembershipEntry t "alive")) := rfl

/-- C5: the timeout sweep stores for every configured node exactly the
observed entry with its status demoted to `dead` precisely when the status
was `alive` or `suspected` and `now − last_heartbeat_ts > T_timeout`
(`sweepDemotes`), and leaves the entry unchanged otherwise; consequently a
node that heartbeats at time `t` is still `alive` after any sweep at a time
`t2 < t + T_timeout`. -/
theorem C5_sweep_transitions (cfg : Config) (st : Catalog)
    (nowTs t t2 : Int) (n : String) (hnd : cfg.storageNodes.Nodup)
    (hn : n ∈ cfg.storageNodes) :
    (lookupA ((applyStorageHeartbeatTimeout cfg nowTs st).1).membership n =
        some (toRaw (sweepApply cfg nowTs (entryObserved cfg nowTs st n))) ∧
      ((sweepApply cfg nowTs (entryObserved cfg nowTs st n)).status = "dead" ↔
        (entryObserved cfg nowTs st n).status = "dead" ∨
          sweepDemotes cfg nowTs (entryObserved cfg nowTs st n)) ∧
      (¬ sweepDemotes cfg nowTs (entryObserved cfg nowTs st n) →
        sweepApply cfg nowTs (entryObserved cfg nowTs st n) =
          entryObserved cfg nowTs st n)) ∧
    (t2 < t + cfg.heartbeatTimeoutSec →
      lookupA ((applyStorageHeartbeatTimeout cfg t2
          (markStorageHeartbeat cfg t st n).1).1).membership n =
        some (toRaw (newMembershipEntry t "alive")) ∧
      (newMembershipEntry t "alive").status = "alive") := by
  constructor
  · refine ⟨apply_membership_lookup cfg nowTs st hnd hn, ?_, ?_⟩
    · unfold sweepApply
      by_cases hd : sweepDemotes cfg nowTs (entryObserved cfg nowTs st n)
      · rw [if_pos hd]
        simp [hd]
      · rw [if_neg hd]
        simp [hd]
    · exact fun hd => sweepApply_of_not_demotes hd
  · intro ht
    have hmem := mark_membership cfg t st n
    have hN : NormalizedM ((markStorageHeartbeat cfg t st n).1).membership := by
      rw [hmem]
      exact insertA_normalized (ensure_normalized cfg t st)
        (newMembershipEntry_isNormalized t "alive")
    have hC : CompleteM cfg ((markStorageHeartbeat cfg t st n).1).membership := by
      rw [hmem]
      exact insertA_complete (ensure_complete cfg t st)
    have hobs : entryObserved cfg t2 (markStorageHeartbeat cfg t st n).1 n =
        newMembershipEntry t "alive" := by
      unfold entryObserved
      rw [ensure_fix t2 hN hC]
      rw [show ((markStorageHeartbeat cfg t st n).1, false).1 =
        (markStorageHeartbeat cfg t st n).1 from rfl]
      rw [hmem, lookupA_insertA_self, Option.getD_some]
      exact coerce_toRaw (newMembershipEntry_isNormalized t "alive") t2
    have hnotdem : ¬ sweepDemotes cfg t2 (newMembershipEntry t "alive") := by
      rintro ⟨_, hlt⟩
      have hts : (newMembershipEntry t "alive").lastHeartbeatTs = t := rfl
      rw [hts] at hlt
      omega
    refine ⟨?_, ?_⟩
    · rw [apply_membership_lookup cfg t2 _ hnd hn, hobs,
        sweepApply_of_not_demotes hnotdem]
    · rw [show (newMembershipEntry t "alive").status =
        normalizeStatus "alive" from rfl]
      exact normalizeStatus_alive

/-- C5 witness: node `s1` heartbeats at time 1; a sweep at time 5 (within
the 9 second timeout) still finds it alive. -/
theorem C5_sweep_transitions_witness :
    lookupA ((applyStorageHeartbeatTimeout cfgW 5
        (markStorageHeartbeat cfgW 1 stW "s1").1).1).membership "s1" =
      some (toRaw (newMembershipEntry 1 "alive")) ∧
    (newMembershipEntry 1 "alive").status = "alive" :=
  (C5_sweep_transitions cfgW stW 0 1 5 "s1" (by decide) (by decide)).2
    (by decide)

theorem chooseReplicas_ok {sample : List String → Nat → List String}
    {alive r : List String} {k : Nat} (hs : ValidSampler sample)
    (hlen : k ≤ alive.length) (h : chooseReplicas sample alive k = .ok r) :
    r.length = k ∧ List.Subperm r alive := by
  unfold chooseReplicas at h
  by_cases h0 : k = 0
  · subst h0
    rw [if_pos rfl] at h
    have hr : r = [] := (Except.ok.inj h).symm
    subst hr
    exact ⟨rfl, List.nil_subperm⟩
  · rw [if_neg h0, if_neg (not_lt.mpr hlen)] at h
    have hr : sample alive k = r := Except.ok.inj h
    subst hr
    exact hs alive k hlen

theorem chunkRegister_stable {cfg : Config}
    {sample : List String → Nat → List String} {nowTs : Int} {st1 : Catalog}
    {fp : String} {cur : List String}
    (hfix : (refreshStorageMembership cfg nowTs st1).1 = st1)
    (hlk : lookupA st1.chunks fp = some cur)
    (hrep : repairChunkReplicas cfg sample cur
      (getAliveStorageNodes cfg nowTs st1) = .ok (uniqueNodes cur))
    (hlen : cfg.replicationFactor ≤
      (getAliveStorageNodes cfg nowTs st1).length) :
    chunkRegister cfg sample nowTs st1 fp = (st1, .ok (uniqueNodes cur)) := by
  unfold chunkRegister
  simp only [load_of_fix hfix]
  rw [if_neg (not_lt.mpr hlen), hlk]
  simp only []
  rw [hrep]
  simp only []
  rw [if_neg (by simp)]

/-- C4: `chunk_register` is idempotent in the steady state: a second call
for the same fingerprint at the same time (unchanged membership) returns the
same replica set and leaves the persisted catalog exactly as the first call
left it. -/
theorem C4_register_idempotent (cfg : Config)
    (sample : List String → Nat → List String) (nowTs : Int)
    (st st1 : Catalog) (fp : String) (r1 : List String)
    (hnd : cfg.storageNodes.Nodup) (hne : "" ∉ cfg.storageNodes)
    (hs : ValidSampler sample)
    (h1 : chunkRegister cfg sample nowTs st fp = (st1, .ok r1)) :
    chunkRegister cfg sample nowTs st1 fp = (st1, .ok r1) := by
  obtain ⟨hg, hcases⟩ := chunkRegister_ok h1
  have haliveN :
      (getAliveStorageNodes cfg nowTs (refreshStorageMembership cfg nowTs st).1).Nodup :=
    getAlive_nodup cfg nowTs _ hnd
  have haliveE : ∀ x ∈ getAliveStorageNodes cfg nowTs
      (refreshStorageMembership cfg nowTs st).1, x ≠ "" := by
    intro x hx hxe
    exact hne (hxe ▸ getAlive_subset cfg nowTs _ hx)
  rcases hcases with ⟨hlkn, hcr, hst1⟩ | ⟨cur, hlks, hrep, hwr⟩
  · -- fresh registration path
    obtain ⟨hrl, hperm⟩ := chooseReplicas_ok hs hg hcr
    have hrn : r1.Nodup := subperm_nodup hperm haliveN
    have hrs : ∀ x ∈ r1, x ∈
        getAliveStorageNodes cfg nowTs (refreshStorageMembership cfg nowTs st).1 :=
      fun x hx => hperm.subset hx
    have hre : ∀ x ∈ r1, x ≠ "" := fun x hx => haliveE x (hrs x hx)
    have hur : uniqueNodes r1 = r1 := uniqueNodes_eq_self hrn hre
    have hfix1 : (refreshStorageMembership cfg nowTs st1).1 = st1 := by
      rw [hst1]
      exact refresh_fix nowTs (refresh_normalized cfg nowTs st)
        (refresh_complete cfg nowTs st) (refresh_swept cfg nowTs st hnd)
    have halive1 : getAliveStorageNodes cfg nowTs st1 =
        getAliveStorageNodes cfg nowTs (refreshStorageMembership cfg nowTs st).1 := by
      rw [hst1]
      exact getAlive_congr rfl
    have hlk1 : lookupA st1.chunks fp = some r1 := by
      rw [hst1]
      exact lookupA_insertA_self _ fp r1
    have hrep1 : repairChunkReplicas cfg sample r1
        (getAliveStorageNodes cfg nowTs st1) = .ok (uniqueNodes r1) := by
      rw [halive1, hur]
      exact repair_fixed cfg sample hrn hre hrs hrl
    have hres := chunkRegister_stable hfix1 hlk1 hrep1
      (by rw [halive1]; exact hg)
    rw [hur] at hres
    exact hres
  · -- existing chunk path
    obtain ⟨hrl, hR, hrs, hrnd⟩ := repair_ok hs hrep
    have hrn : r1.Nodup := hrnd haliveN
    have hre : ∀ x ∈ r1, x ≠ "" := fun x hx => haliveE x (hrs x hx)
    have hur : uniqueNodes r1 = r1 := uniqueNodes_eq_self hrn hre
    rcases hwr with ⟨hneq, hst1⟩ | ⟨heq, hst1⟩
    · -- the repaired set was written back
      have hfix1 : (refreshStorageMembership cfg nowTs st1).1 = st1 := by
        rw [hst1]
        exact refresh_fix nowTs (refresh_normalized cfg nowTs st)
          (refresh_complete cfg nowTs st) (refresh_swept cfg nowTs st hnd)
      have halive1 : getAliveStorageNodes cfg nowTs st1 =
          getAliveStorageNodes cfg nowTs (refreshStorageMembership cfg nowTs st).1 := by
        rw [hst1]
        exact getAlive_congr rfl
      have hlk1 : lookupA st1.chunks fp = some r1 := by
        rw [hst1]
        exact lookupA_insertA_self _ fp r1
      have hrep1 : repairChunkReplicas cfg sample r1
          (getAliveStorageNodes cfg nowTs st1) = .ok (uniqueNodes r1) := by
        rw [halive1, hur]
        exact repair_fixed cfg sample hrn hre hrs hrl
      have hres := chunkRegister_stable hfix1 hlk1 hrep1
        (by rw [halive1]; exact hg)
      rw [hur] at hres
      exact hres
    · -- the stored set already matched: nothing was written
      rcases load_snd_cases cfg nowTs st with hld | hld
      · have hst1R : st1 = (refreshStorageMembership cfg nowTs st).1 := by
          rw [hst1, hld]
        have hfix1 : (refreshStorageMembership cfg nowTs st1).1 = st1 := by
          rw [hst1R]
          exact refresh_refresh cfg nowTs st hnd
        have halive1 : getAliveStorageNodes cfg nowTs st1 =
            getAliveStorageNodes cfg nowTs
              (refreshStorageMembership cfg nowTs st).1 := by
          rw [hst1R]
        have hlk1 : lookupA st1.chunks fp = some cur := by
          rw [hst1R]
          exact hlks
        have hrep1 : repairChunkReplicas cfg sample cur
            (getAliveStorageNodes cfg nowTs st1) = .ok (uniqueNodes cur) := by
          rw [halive1, ← heq]
          exact hrep
        have hres := chunkRegister_stable hfix1 hlk1 hrep1
          (by rw [halive1]; exact hg)
        rw [← heq] at hres
        exact hres
      · have hst1S : st1 = st := by rw [hst1, hld]
        rw [hst1S]
        rw [hst1S] at h1
        exact h1

/-- C4 witness: registering chunk `"a"` on the empty two-node catalog and
registering it again returns the same replica set and the same catalog. -/
theorem C4_register_idempotent_witness :
    chunkRegister cfgW takeSample 0 stW1 "a" = (stW1, .ok ["s1", "s2"]) :=
  C4_register_idempotent cfgW takeSample 0 stW stW1 "a" ["s1", "s2"]
    (by decide) (by decide) validSampler_take (by decide)

theorem lookupA_insertA_cases {α : Type} {l : List (String × α)}
    {k k' : String} {v v' : α} (h : lookupA (insertA l k v) k' = some v') :
    (k' = k ∧ v' = v) ∨ lookupA l k' = some v' := by
  by_cases hk : k' = k
  · subst hk
    rw [lookupA_insertA_self] at h
    exact Or.inl ⟨rfl, (Option.some.inj h).symm⟩
  · rw [lookupA_insertA_ne l v hk] at h
    exact Or.inr h

theorem commitRepairLoop_lookup (cfg : Config)
    (sample : List String → Nat → List String) (alive : List String)
    (l : List String) :
    ∀ chunks chunks2, commitRepairLoop cfg sample alive chunks l = .ok chunks2 →
      ∀ fp reps, lookupA chunks2 fp = some reps →
        lookupA chunks fp = some reps ∨
        ∃ cur, repairChunkReplicas cfg sample cur alive = .ok reps := by
  induction l with
  | nil =>
      intro chunks chunks2 h fp reps hl
      have hc : chunks = chunks2 := Except.ok.inj h
      subst hc
      exact Or.inl hl
  | cons x rest ih =>
      intro chunks chunks2 h fp reps hl
      unfold commitRepairLoop at h
      rcases hr : repairChunkReplicas cfg sample ((lookupA chunks x).getD []) alive
        with e | repaired
      · rw [hr] at h
        cases h
      · rw [hr] at h
        simp only [] at h
        rcases ih _ _ h fp reps hl with hold | hrep
        · rcases lookupA_insertA_cases hold with ⟨hfp, hreps⟩ | hold2
          · subst hreps
            exact Or.inr ⟨_, hr⟩
          · exact Or.inl hold2
        · exact hrep.elim (fun cur hc => Or.inr ⟨cur, hc⟩)

theorem replicaInv_of_all {cfg : Config} {nowTs : Int} {st1 : Catalog}
    (h : ∀ fp reps, lookupA st1.chunks fp = some reps →
      reps.Nodup ∧ (∀ x ∈ reps, x ∈ cfg.storageNodes) ∧
        reps.length = cfg.replicationFactor) :
    ReplicaInv cfg nowTs st1 :=
  ⟨fun fp reps hl =>
      ⟨(h fp reps hl).1, (h fp reps hl).2.1, le_of_eq (h fp reps hl).2.2⟩,
    fun _ fp reps hl => (h fp reps hl).2.2⟩

/-- C7: the replica-set invariant — every stored replica list is
duplicate-free, drawn from `N_cfg`, of length at most `R`, and of length
exactly `R` whenever at least `R` configured nodes are alive — is preserved
by every successful `chunk_register` and every successful `file_commit`. -/
theorem C7_replica_invariant (cfg : Config)
    (sample : List String → Nat → List String) (nowTs : Int) (st : Catalog)
    (hnd : cfg.storageNodes.Nodup) (hs : ValidSampler sample)
    (hinv : ReplicaInv cfg nowTs st) :
    (∀ fp st1 r1, chunkRegister cfg sample nowTs st fp = (st1, .ok r1) →
      ReplicaInv cfg nowTs st1) ∧
    (∀ name fps st1, fileCommit cfg sample nowTs st name fps = (st1, .ok ()) →
      ReplicaInv cfg nowTs st1) := by
  have haliveN :
      (getAliveStorageNodes cfg nowTs (refreshStorageMembership cfg nowTs st).1).Nodup :=
    getAlive_nodup cfg nowTs _ hnd
  have haliveC : ∀ x ∈ getAliveStorageNodes cfg nowTs
      (refreshStorageMembership cfg nowTs st).1, x ∈ cfg.storageNodes :=
    fun x hx => getAlive_subset cfg nowTs _ hx
  have hchR : ((refreshStorageMembership cfg nowTs st).1).chunks = st.chunks :=
    refresh_chunks cfg nowTs st
  constructor
  · intro fp st1 r1 h1
    obtain ⟨hg, hcases⟩ := chunkRegister_ok h1
    have hRst : cfg.replicationFactor ≤
        (getAliveStorageNodes cfg nowTs st).length :=
      le_trans hg (getAlive_refresh_length_le cfg nowTs st hnd)
    have hAllR : ∀ fp2 reps, lookupA st.chunks fp2 = some reps →
        reps.Nodup ∧ (∀ x ∈ reps, x ∈ cfg.storageNodes) ∧
          reps.length = cfg.replicationFactor :=
      fun fp2 reps hl =>
        ⟨(hinv.1 fp2 reps hl).1, (hinv.1 fp2 reps hl).2.1,
          hinv.2 hRst fp2 reps hl⟩
    rcases hcases with ⟨hlkn, hcr, hst1⟩ | ⟨cur, hlks, hrep, hwr⟩
    · obtain ⟨hrl, hperm⟩ := chooseReplicas_ok hs hg hcr
      refine replicaInv_of_all ?_
      intro fp2 reps hl
      have hch1 : st1.chunks =
          insertA ((refreshStorageMembership cfg nowTs st).1).chunks fp r1 := by
        rw [hst1]
      rw [hch1, hchR] at hl
      rcases lookupA_insertA_cases hl with ⟨hfp, hreps⟩ | hold
      · subst hreps
        exact ⟨subperm_nodup hperm haliveN,
          fun x hx => haliveC x (hperm.subset hx), hrl⟩
      · exact hAllR fp2 reps hold
    · obtain ⟨hrl, hR, hrs, hrnd⟩ := repair_ok hs hrep
      rcases hwr with ⟨hneq, hst1⟩ | ⟨heq, hst1⟩
      · refine replicaInv_of_all ?_
        intro fp2 reps hl
        have hch1 : st1.chunks =
            insertA ((refreshStorageMembership cfg nowTs st).1).chunks fp r1 := by
          rw [hst1]
        rw [hch1, hchR] at hl
        rcases lookupA_insertA_cases hl with ⟨hfp, hreps⟩ | hold
        · subst hreps
          exact ⟨hrnd haliveN, fun x hx => haliveC x (hrs x hx), hrl⟩
        · exact hAllR fp2 reps hold
      · refine replicaInv_of_all ?_
        intro fp2 reps hl
        have hch1 : st1.chunks = st.chunks := by
          rw [hst1]
          exact load_snd_chunks cfg nowTs st
        rw [hch1] at hl
        exact hAllR fp2 reps hl
  · intro name fps st1 hc
    obtain ⟨hmiss, hg, chunks2, hloop, hst1⟩ := fileCommit_ok hc
    have hRst : cfg.replicationFactor ≤
        (getAliveStorageNodes cfg nowTs st).length :=
      le_trans hg (getAlive_refresh_length_le cfg nowTs st hnd)
    have hAllR : ∀ fp2 reps, lookupA st.chunks fp2 = some reps →
        reps.Nodup ∧ (∀ x ∈ reps, x ∈ cfg.storageNodes) ∧
          reps.length = cfg.replicationFactor :=
      fun fp2 reps hl =>
        ⟨(hinv.1 fp2 reps hl).1, (hinv.1 fp2 reps hl).2.1,
          hinv.2 hRst fp2 reps hl⟩
    refine replicaInv_of_all ?_
    intro fp2 reps hl
    have hch1 : st1.chunks = chunks2 := by rw [hst1]
    rw [hch1] at hl
    rcases commitRepairLoop_lookup cfg sample _ _ _ _ hloop fp2 reps hl
      with hold | ⟨cur, hrep⟩
    · rw [hchR] at hold
      exact hAllR fp2 reps hold
    · obtain ⟨hrl, hR, hrs, hrnd⟩ := repair_ok hs hrep
      exact ⟨hrnd haliveN, fun x hx => haliveC x (hrs x hx), hrl⟩

/-- C7 witness: registering chunk `"a"` on the empty invariant-satisfying
catalog yields a catalog that still satisfies the replica-set invariant. -/
theorem C7_replica_invariant_witness : ReplicaInv cfgW 0 stW1 :=
  (C7_replica_invariant cfgW takeSample 0 stW (by decide) validSampler_take
      ⟨fun fp reps h => by simp [lookupA] at h,
        fun _ fp reps h => by simp [lookupA] at h⟩).1
    "a" stW1 ["s1", "s2"] (by decide)

end DFS
